import Mathlib

set_option maxHeartbeats 1000000

/-!
Verification of the Markdown-to-PDF builder (`build_ios_system_dev_pdf.py`).

Strings are modelled as `List Char` (Python `str`). Each Python function is
embedded as an executable Lean definition; the scanning loops of the source are
embedded with an explicit fuel argument that is instantiated with the exact
remaining length, which the progress lemmas below show is always sufficient, so
the fuel-exhaustion branches are unreachable and the definitions agree with the
source loops on every input.
-/

namespace MdPdf

/-- A line of input text (a Python `str` value), as a list of characters. -/
abbrev Line := List Char

/-- Python whitespace, as stripped by `str.strip()` and matched by `\s`
(ASCII range; the document lines contain no exotic Unicode whitespace). -/
def isPySpace (c : Char) : Bool :=
  c == ' ' || c == '\t' || c == '\n' || c == '\r' || c == '\x0b' || c == '\x0c'

/-- Python `s.lstrip()`. -/
def lstripWs (s : Line) : Line := s.dropWhile isPySpace

/-- Python `s.rstrip()`. -/
def rstripWs (s : Line) : Line := (s.reverse.dropWhile isPySpace).reverse

/-- Python `s.strip()`. -/
def stripWs (s : Line) : Line := rstripWs (lstripWs s)

/-- Python `s.rstrip("\n")`, applied by `build_pdf` to the line under scan. -/
def rstripNl (s : Line) : Line := (s.reverse.dropWhile (· == '\n')).reverse

/-- The test `not line.strip()` of `build_pdf` (the blank-line skip). -/
def blankLine (s : Line) : Bool := (lstripWs s).isEmpty

/-- One character's image under `xml.sax.saxutils.escape` with the default
entity table: `&`, `<`, `>` are replaced, every other character is kept. -/
def escChar (c : Char) : List Char :=
  if c == '&' then ("&amp;".data)
  else if c == '<' then ("&lt;".data)
  else if c == '>' then ("&gt;".data)
  else [c]

/-- Python `xml.sax.saxutils.escape` (imported as `xml_escape` in the source):
sequential replacement of `&`, `<`, `>` by their entities, which is the
character-wise substitution `escChar` applied across the string. -/
def xml_escape (s : List Char) : List Char := s.foldr (fun c acc => escChar c ++ acc) []

/-- The character class `UNICODE_DASHES_RE`:
`[‐‑‒–—―−]`. -/
def isUnicodeDash (c : Char) : Bool :=
  c == '‐' || c == '‑' || c == '‒' || c == '–' ||
  c == '—' || c == '―' || c == '−'

/-- One character's image under `UNICODE_DASHES_RE.sub("-", ·)`. -/
def dashSub (c : Char) : Char := if isUnicodeDash c then '-' else c

/-- `normalize_dashes` of the source: replace every Unicode dash variant by
the ASCII hyphen-minus. -/
def normalize_dashes (s : List Char) : List Char := s.map dashSub

/-- `text.find("\x60", i + 1)` of `_inline_md_to_rl_markup`, relative to the
suffix after the opening backtick: split at the first backtick, returning the
part before it and the part after it, or `none` when there is none. -/
def splitAtTick : List Char → Option (List Char × List Char)
  | [] => none
  | c :: r =>
    if c == '\x60' then some ([], r)
    else
      match splitAtTick r with
      | none => none
      | some (a, b) => some (c :: a, b)

/-- `text.find("**", i + 2)` relative to the suffix after the opening `**`:
split at the first occurrence of `**`, returning the part before it and the
part after both stars, or `none` when there is none. -/
def splitAtBold : List Char → Option (List Char × List Char)
  | [] => none
  | c :: r =>
    if c == '*' && r.head? == some '*' then some ([], r.tail)
    else
      match splitAtBold r with
      | none => none
      | some (a, b) => some (c :: a, b)

/-- The default branch of `_inline_md_to_rl_markup`: the plain chunk up to the
next delimiter position (`min` of the next backtick and the next `**`), and the
remaining text from that delimiter on. -/
def breakAtDelim : List Char → List Char × List Char
  | [] => ([], [])
  | c :: r =>
    if c == '\x60' then ([], c :: r)
    else if c == '*' && r.head? == some '*' then ([], c :: r)
    else
      let p := breakAtDelim r
      (c :: p.1, p.2)

/-- The markup inserted around an inline code span. -/
def fontOpenTag : List Char := ("<font name=\"Courier\">".data)

/-- The closing markup of an inline code span. -/
def fontCloseTag : List Char := ("</font>".data)

/-- The markup inserted around a bold span. -/
def boldOpenTag : List Char := ("<b>".data)

/-- The closing markup of a bold span. -/
def boldCloseTag : List Char := ("</b>".data)

/-- The ReportLab line-break marker substituted for `"\n"`. -/
def brTag : List Char := ("<br/>".data)

/-- The scan loop of `_inline_md_to_rl_markup`, with fuel.  Each iteration of
the source loop consumes at least one character, so fuel equal to the length of
the text (as supplied by `inlineScan`) never runs out. -/
def inlineScanF : Nat → List Char → List Char
  | _, [] => []
  | 0, _ :: _ => []
  | f + 1, c :: r =>
    if c == '\x60' then
      match splitAtTick r with
      | none => xml_escape (c :: r)
      | some (a, b) => fontOpenTag ++ xml_escape a ++ fontCloseTag ++ inlineScanF f b
    else if c == '*' && r.head? == some '*' then
      match splitAtBold r.tail with
      | none => xml_escape (c :: r)
      | some (a, b) => boldOpenTag ++ xml_escape a ++ boldCloseTag ++ inlineScanF f b
    else
      let p := breakAtDelim r
      xml_escape (c :: p.1) ++ inlineScanF f p.2

/-- The scan loop of `_inline_md_to_rl_markup` over a whole text. -/
def inlineScan (l : List Char) : List Char := inlineScanF l.length l

/-- The final `"".join(out).replace("\n", "<br/>")` step. -/
def replaceNl (s : List Char) : List Char :=
  s.foldr (fun c acc => (if c == '\n' then brTag else [c]) ++ acc) []

/-- `_inline_md_to_rl_markup` of the source: normalize dashes, scan for inline
code and bold spans, then replace newlines with the line-break marker. -/
def inline_md_to_rl_markup (text : List Char) : List Char :=
  replaceNl (inlineScan (normalize_dashes text))

/-- A styled run recognized by the inline translator. -/
inductive StyledRun where
  | plainRun (s : List Char)
  | codeRun (s : List Char)
  | boldRun (s : List Char)
deriving DecidableEq

/-- The markup emitted for one styled run: every variant passes its content
through `xml_escape` before (for code and bold) wrapping it in its tags. -/
def runMarkup : StyledRun → List Char
  | .plainRun s => xml_escape s
  | .codeRun s => fontOpenTag ++ xml_escape s ++ fontCloseTag
  | .boldRun s => boldOpenTag ++ xml_escape s ++ boldCloseTag

/-- The run structure recognized by the scan loop of
`_inline_md_to_rl_markup`: same traversal as `inlineScanF`, recording the
source segment of each run instead of its rendered markup. -/
def runsOfF : Nat → List Char → List StyledRun
  | _, [] => []
  | 0, _ :: _ => []
  | f + 1, c :: r =>
    if c == '\x60' then
      match splitAtTick r with
      | none => [StyledRun.plainRun (c :: r)]
      | some (a, b) => StyledRun.codeRun a :: runsOfF f b
    else if c == '*' && r.head? == some '*' then
      match splitAtBold r.tail with
      | none => [StyledRun.plainRun (c :: r)]
      | some (a, b) => StyledRun.boldRun a :: runsOfF f b
    else
      let p := breakAtDelim r
      StyledRun.plainRun (c :: p.1) :: runsOfF f p.2

/-- The run decomposition of a whole text. -/
def runsOf (l : List Char) : List StyledRun := runsOfF l.length l

/-- Concatenated markup of a run sequence. -/
def runsRender (rs : List StyledRun) : List Char :=
  rs.foldr (fun r acc => runMarkup r ++ acc) []

/-- `re.fullmatch(r":?-{3,}:?", s)` of `_is_table_sep_row`: an optional leading
colon, three or more hyphens, an optional trailing colon. -/
def isSepCellPat (s : Line) : Bool :=
  let a := if s.head? == some ':' then s.drop 1 else s
  let b := if a.getLast? == some ':' then a.dropLast else a
  decide (3 ≤ b.length) && b.all (fun c => c == '-')

/-- `_is_table_sep_row` of the source: every cell, stripped, is non-empty and
matches the separator pattern. -/
def is_table_sep_row (cells : List Line) : Bool :=
  cells.all (fun c => !(stripWs c).isEmpty && isSepCellPat (stripWs c))

/-- Python `s.split("|")` on a single-character separator: empty segments are
kept, and the empty string splits to one empty segment. -/
def splitOnPipe : List Char → List (List Char)
  | [] => [[]]
  | c :: r =>
    if c == '|' then [] :: splitOnPipe r
    else
      match splitOnPipe r with
      | [] => [[c]]
      | a :: rest => (c :: a) :: rest

/-- Python `s.strip("|")`: remove every leading and trailing pipe. -/
def stripPipes (s : Line) : Line :=
  ((s.dropWhile (· == '|')).reverse.dropWhile (· == '|')).reverse

/-- The per-line cell extraction of `_parse_table_rows`:
`[p.strip() for p in raw.strip("|").split("|")]` with `raw = ln.strip()`. -/
def tableCells (ln : Line) : List Line := (splitOnPipe (stripPipes (stripWs ln))).map stripWs

/-- `raw.startswith("|")` of `_parse_table_rows`. -/
def startsPipe (s : Line) : Bool := s.head? == some '|'

/-- The data rows accumulated by the loop of `_parse_table_rows`: lines whose
stripped form starts with a pipe, split into cells, with separator rows
filtered out.  This is the value of `rows` before the padding loop. -/
def tableDataRows (lines : List Line) : List (List Line) :=
  ((lines.filter (fun ln => startsPipe (stripWs ln))).map tableCells).filter
    (fun r => !is_table_sep_row r)

/-- `max((len(r) for r in rows), default=0)` of `_parse_table_rows`. -/
def tableWidth (lines : List Line) : Nat :=
  ((tableDataRows lines).map List.length).foldr Nat.max 0

/-- `_parse_table_rows` of the source: the filtered rows, each right-padded
with empty-string cells to the maximum observed cell count. -/
def parse_table_rows (lines : List Line) : List (List Line) :=
  (tableDataRows lines).map
    (fun r => r ++ List.replicate (tableWidth lines - r.length) ([] : Line))

/-- `CODE_FENCE_RE.match(s)`: the regex `^\s*` followed by three backticks. -/
def fenceMatch (s : Line) : Bool := (("\x60\x60\x60").data).isPrefixOf (lstripWs s)

/-- `HR_RE.match(s)`: the regex `^\s*(?:---|\*\*\*|___)\s*$`, which holds
exactly when the stripped line is one of the three three-character rules. -/
def hrMatch (s : Line) : Bool :=
  stripWs s == ("---".data) || stripWs s == ("***".data) || stripWs s == ("___".data)

/-- `BLOCKQUOTE_RE.match(s)`: the regex `^\s*>\s?(.*)$`, which holds exactly
when the first non-whitespace character is `>`. -/
def quoteMatch (s : Line) : Bool := (lstripWs s).head? == some '>'

/-- The `text` group of `BLOCKQUOTE_RE`: what follows the `>` after at most
one further whitespace character (the `\s?`). -/
def quoteText (s : Line) : Line :=
  match lstripWs s with
  | '>' :: r =>
    match r with
    | c :: r2 => if isPySpace c then r2 else c :: r2
    | [] => []
  | _ => []

/-- `TABLE_ROW_RE.match(s)`: the regex `^\s*\|.*\|\s*$`, which holds exactly
when the stripped line has length at least two and starts and ends with a
pipe. -/
def tableRowMatch (s : Line) : Bool :=
  decide (2 ≤ (stripWs s).length) && (stripWs s).head? == some '|' &&
    (stripWs s).getLast? == some '|'

/-- `HEADING_RE.match(s)`: the regex `^(#{1,6})\s+(.*)$`.  Returns the heading
level (number of leading hashes, one to six) and the `text` group (what
follows the greedy whitespace run after the hashes), or `none`. -/
def headingMatch (s : Line) : Option (Nat × Line) :=
  let hs := s.takeWhile (· == '#')
  if 1 ≤ hs.length ∧ hs.length ≤ 6 then
    let r := s.drop hs.length
    let sp := r.takeWhile isPySpace
    if sp.isEmpty then none else some (hs.length, r.drop sp.length)
  else none

/-- The single-character list markers `[-+*]` of `LIST_RE`. -/
def isListMarkerChar (c : Char) : Bool := c == '-' || c == '+' || c == '*'

/-- The `marker` alternation of `LIST_RE`, `(?:[-+*])|(?:\d+\.)`, applied at
the start of the de-indented line: the marker token and the rest. -/
def markerSplit (r : Line) : Option (Line × Line) :=
  match r with
  | [] => none
  | c :: _ =>
    if isListMarkerChar c then some ([c], r.tail)
    else if c.isDigit then
      if (r.dropWhile Char.isDigit).head? == some '.' then
        some (r.takeWhile Char.isDigit ++ ['.'], (r.dropWhile Char.isDigit).tail)
      else none
    else none

/-- `LIST_RE.match(s)`: the regex `^(\s*)((?:[-+*])|(?:\d+\.))\s+(.*)$`.
Returns the length of the `indent` group, the `marker` group, and the `text`
group, or `none`. -/
def listMatch (s : Line) : Option (Nat × Line × Line) :=
  match markerSplit (s.dropWhile isPySpace) with
  | none => none
  | some (m, rest) =>
    if (rest.takeWhile isPySpace).isEmpty then none
    else some ((s.takeWhile isPySpace).length, m, rest.dropWhile isPySpace)

/-- A classified block produced by the line scan of `build_pdf`. -/
inductive MdBlock where
  | codeBlock (code : List Line)
  | heading (level : Nat) (text : Line)
  | rule
  | blockquote (text : Line)
  | table (rows : List (List Line))
  | listGroup (items : List (Nat × Line × List Line))
  | paragraph (text : Line)
deriving DecidableEq

/-- `md_lines[i]` of the source (all uses are within bounds). -/
def lineAt (lines : List Line) (i : Nat) : Line := lines.getD i []

/-- `_gather_until` of the source, with fuel: consume lines from index `i`
while the predicate holds, returning them and the index of the first line not
consumed.  Fuel `lines.length - i` (as supplied by `gather_until`) is exact. -/
def gatherUntilF (lines : List Line) (pred : Line → Bool) : Nat → Nat → List Line × Nat
  | 0, i => ([], i)
  | f + 1, i =>
    if i < lines.length ∧ pred (lineAt lines i) = true then
      (lineAt lines i :: (gatherUntilF lines pred f (i + 1)).1,
       (gatherUntilF lines pred f (i + 1)).2)
    else ([], i)

/-- `_gather_until(lines, start, pred)` of the source. -/
def gather_until (lines : List Line) (pred : Line → Bool) (i : Nat) : List Line × Nat :=
  gatherUntilF lines pred (lines.length - i) i

/-- The continuation test of the list gather in `build_pdf`:
`ln.startswith("  ") or ln.startswith("\t")`. -/
def contIndent (ln : Line) : Bool :=
  (("  ").data).isPrefixOf ln || (("\t").data).isPrefixOf ln

/-- `items[-1][2].append(p)` of the list gather: append a continuation part to
the most recently started item. -/
def appendToLast : List (Nat × Line × List Line) → Line → List (Nat × Line × List Line)
  | [], _ => []
  | [(ws, m, ps)], p => [(ws, m, ps ++ [p])]
  | x :: xs, p => x :: appendToLast xs p

/-- The list-item gather loop of `build_pdf`, with fuel: a marker line starts a
new item `(indent_spaces, marker, [text.rstrip()])`; a non-marker line indented
by two spaces or a tab, once an item exists, is appended stripped to the last
item's parts; a blank or other line stops the gather.  Fuel
`lines.length - j` (as supplied by `listGather`) is exact. -/
def listGatherF (lines : List Line) :
    Nat → List (Nat × Line × List Line) → Nat → List (Nat × Line × List Line) × Nat
  | 0, items, j => (items, j)
  | f + 1, items, j =>
    if j < lines.length then
      if blankLine (lineAt lines j) then (items, j)
      else
        match listMatch (lineAt lines j) with
        | some (ws, m, t) => listGatherF lines f (items ++ [(ws, m, [rstripWs t])]) (j + 1)
        | none =>
          if !items.isEmpty && contIndent (lineAt lines j) then
            listGatherF lines f (appendToLast items (stripWs (lineAt lines j))) (j + 1)
          else (items, j)
    else (items, j)

/-- The list-item gather loop of `build_pdf` from index `j`. -/
def listGather (lines : List Line) (items : List (Nat × Line × List Line)) (j : Nat) :
    List (Nat × Line × List Line) × Nat :=
  listGatherF lines (lines.length - j) items j

/-- The paragraph gather loop of `build_pdf`, with fuel: consume lines while
they are non-blank and match none of the six other block-start patterns,
collecting them right-stripped.  Fuel `lines.length - j` (as supplied by
`paraGather`) is exact. -/
def paraGatherF (lines : List Line) : Nat → Nat → List Line × Nat
  | 0, j => ([], j)
  | f + 1, j =>
    if j < lines.length then
      if blankLine (lineAt lines j) then ([], j)
      else if fenceMatch (lineAt lines j) || (headingMatch (lineAt lines j)).isSome ||
          hrMatch (lineAt lines j) || quoteMatch (lineAt lines j) then ([], j)
      else if tableRowMatch (lineAt lines j) || (listMatch (lineAt lines j)).isSome then ([], j)
      else
        (rstripWs (lineAt lines j) :: (paraGatherF lines f (j + 1)).1,
         (paraGatherF lines f (j + 1)).2)
    else ([], j)

/-- The paragraph gather loop of `build_pdf` from index `j`. -/
def paraGather (lines : List Line) (j : Nat) : List Line × Nat :=
  paraGatherF lines (lines.length - j) j

/-- `" ".join(s.strip() for s in para_lines if s.strip())` of `build_pdf`. -/
def paraJoin (xs : List Line) : Line :=
  List.intercalate [' ']
    (xs.filterMap (fun s => let t := stripWs s; if t.isEmpty then none else some t))

/-- One iteration of the main `while i < len(md_lines)` loop of `build_pdf`:
classify the line at index `i` by the source's ordered pattern tests, perform
the matched block's gather, and return the emitted block (if any) together
with the next scan index. -/
def segStep (lines : List Line) (i : Nat) : Option MdBlock × Nat :=
  if blankLine (rstripNl (lineAt lines i)) then (none, i + 1)
  else if fenceMatch (rstripNl (lineAt lines i)) then
    (some (MdBlock.codeBlock (gather_until lines (fun s => !fenceMatch s) (i + 1)).1),
     if (gather_until lines (fun s => !fenceMatch s) (i + 1)).2 < lines.length then
       (gather_until lines (fun s => !fenceMatch s) (i + 1)).2 + 1
     else (gather_until lines (fun s => !fenceMatch s) (i + 1)).2)
  else
    match headingMatch (rstripNl (lineAt lines i)) with
    | some (lvl, t) => (some (MdBlock.heading lvl (stripWs t)), i + 1)
    | none =>
      if hrMatch (rstripNl (lineAt lines i)) then (some MdBlock.rule, i + 1)
      else if quoteMatch (rstripNl (lineAt lines i)) then
        (some (MdBlock.blockquote (List.intercalate ['\n']
           ((gather_until lines (fun s => quoteMatch s) i).1.map quoteText))),
         (gather_until lines (fun s => quoteMatch s) i).2)
      else if tableRowMatch (rstripNl (lineAt lines i)) then
        (if (parse_table_rows (gather_until lines (fun s => tableRowMatch s) i).1).isEmpty then
           none
         else some (MdBlock.table (parse_table_rows (gather_until lines
           (fun s => tableRowMatch s) i).1)),
         (gather_until lines (fun s => tableRowMatch s) i).2)
      else
        match listMatch (rstripNl (lineAt lines i)) with
        | some _ =>
          (some (MdBlock.listGroup (listGather lines [] i).1), (listGather lines [] i).2)
        | none =>
          (some (MdBlock.paragraph
             (paraJoin (rstripNl (lineAt lines i) :: (paraGather lines (i + 1)).1))),
           (paraGather lines (i + 1)).2)

/-- The main loop of `build_pdf`, with fuel: run `segStep` from index `i`
until the end of input, recording each iteration's block and consumed index
range `[start, next)`.  Fuel `lines.length - i` (as supplied by
`segmentFrom`) is sufficient because every step advances the index. -/
def segmentFromF (lines : List Line) : Nat → Nat → List (Option MdBlock × Nat × Nat)
  | 0, _ => []
  | f + 1, i =>
    if i < lines.length then
      ((segStep lines i).1, i, (segStep lines i).2) :: segmentFromF lines f (segStep lines i).2
    else []

/-- The trace of the main loop of `build_pdf` from index `i`. -/
def segmentFrom (lines : List Line) (i : Nat) : List (Option MdBlock × Nat × Nat) :=
  segmentFromF lines (lines.length - i) i

/-- The blocks emitted by the main loop of `build_pdf`, in order. -/
def segmentBlocks (lines : List Line) : List MdBlock :=
  (segmentFrom lines 0).filterMap (fun x => x.1)

/-- The consumed line-index range `[start, next)` of each emitted block. -/
def blockRanges (lines : List Line) : List (Nat × Nat) :=
  (segmentFrom lines 0).filterMap (fun x => x.1.map (fun _ => (x.2.1, x.2.2)))

/-- The line classification implicit in `build_pdf`'s ordered pattern tests:
blank, code-fence, heading, horizontal rule, blockquote, table row, list item,
else paragraph — first match wins. -/
inductive LineKind where
  | blankK | fenceK | headingK | hrK | quoteK | tableK | listK | paraK
deriving DecidableEq

/-- The ordered first-match classification of one line, mirroring the chain of
pattern tests in `build_pdf`. -/
def classifyLine (l : Line) : LineKind :=
  if blankLine l then LineKind.blankK
  else if fenceMatch l then LineKind.fenceK
  else if (headingMatch l).isSome then LineKind.headingK
  else if hrMatch l then LineKind.hrK
  else if quoteMatch l then LineKind.quoteK
  else if tableRowMatch l then LineKind.tableK
  else if (listMatch l).isSome then LineKind.listK
  else LineKind.paraK

/-- The chain predicate for the loop trace: the recorded ranges tile
`[a, n)` exactly, in order, each non-empty. -/
def ChainFrom : Nat → Nat → List (Option MdBlock × Nat × Nat) → Prop
  | a, n, [] => a = n
  | a, n, x :: rest => x.2.1 = a ∧ a < x.2.2 ∧ x.2.2 ≤ n ∧ ChainFrom x.2.2 n rest

/-- `indent_level = indent_spaces // 2` of the list rendering in `build_pdf`. -/
def itemIndentLevel (wsCount : Nat) : Nat := wsCount / 2

/-- The rendered text of one list item in `build_pdf`:
`f"{marker} {txt}"` with `txt = " ".join(p.strip() for p in parts if p.strip())`. -/
def listItemText (m : Line) (parts : List Line) : Line :=
  m ++ ' ' ::
    List.intercalate [' ']
      (parts.filterMap (fun p => let t := stripWs p; if t.isEmpty then none else some t))

/-- The rendered texts of the items gathered from index 0. -/
def groupedListTexts (lines : List Line) : List Line :=
  (listGather lines [] 0).1.map (fun it => listItemText it.2.1 it.2.2)

/-- Occurrence test for a backtick (an inline-code delimiter). -/
def hasTick (l : List Char) : Bool := l.contains '\x60'

/-- Occurrence test for the two-character bold delimiter `**`. -/
def hasBoldTok : List Char → Bool
  | [] => false
  | c :: r => (c == '*' && r.head? == some '*') || hasBoldTok r

/-- Whether the last character is a star (which could fuse with a following
`**` into an earlier bold delimiter). -/
def endsStar (l : List Char) : Bool := l.getLast? == some '*'

/-- The separator-cell pattern `:?-{3,}:?`, stated the way the specification
words it: an optional leading colon, three or more hyphens, an optional
trailing colon.  Used to check `isSepCellPat` against the specification. -/
def SepCellSpec (s : Line) : Prop :=
  ∃ n, 3 ≤ n ∧
    (s = List.replicate n '-' ∨ s = ':' :: List.replicate n '-' ∨
     s = List.replicate n '-' ++ [':'] ∨ s = ':' :: (List.replicate n '-' ++ [':']))

/-! ### Helper lemmas on whitespace stripping -/

theorem dropWhile_append_of_ne_nil {p : Char → Bool} {l m : List Char}
    (h : l.dropWhile p ≠ []) : (l ++ m).dropWhile p = l.dropWhile p ++ m := by
  rw [List.dropWhile_append]
  simp [List.isEmpty_iff, h]

theorem takeWhile_append_of_ne_nil {p : Char → Bool} {l m : List Char}
    (h : l.dropWhile p ≠ []) : (l ++ m).takeWhile p = l.takeWhile p := by
  rw [List.takeWhile_append]
  have hlen := congrArg List.length (List.takeWhile_append_dropWhile p l)
  simp only [List.length_append] at hlen
  have hne : (l.takeWhile p).length ≠ l.length := by
    intro he
    apply h
    have : (l.dropWhile p).length = 0 := by omega
    exact List.length_eq_zero.mp this
  simp [hne]

theorem dropWhile_append_of_all {p : Char → Bool} {l m : List Char}
    (h : ∀ c ∈ l, p c = true) : (l ++ m).dropWhile p = m.dropWhile p := by
  induction l with
  | nil => rfl
  | cons c w ih =>
    simp only [List.cons_append, List.dropWhile_cons, h c (by simp)]
    exact ih (fun x hx => h x (by simp [hx]))

theorem dropWhile_dropWhile {p q : Char → Bool} (h : ∀ c, q c = true → p c = true) :
    ∀ l : List Char, (l.dropWhile q).dropWhile p = l.dropWhile p
  | [] => rfl
  | c :: w => by
    by_cases hq : q c = true
    · simp only [List.dropWhile_cons, hq, h c hq, if_true]
      exact dropWhile_dropWhile h w
    · simp [List.dropWhile_cons, hq]

theorem head_dropWhile_false {p : Char → Bool} :
    ∀ {l : List Char} {c : Char} {w : List Char}, l.dropWhile p = c :: w → p c = false
  | [], _, _, h => by simp at h
  | d :: r, c, w, h => by
    by_cases hd : p d = true
    · rw [List.dropWhile_cons, if_pos hd] at h
      exact head_dropWhile_false h
    · rw [List.dropWhile_cons, if_neg hd] at h
      cases h
      simpa using hd

theorem rstripWs_cons {c : Char} {w : List Char} (h : isPySpace c = false) :
    rstripWs (c :: w) = c :: rstripWs w := by
  unfold rstripWs
  rw [List.reverse_cons, List.dropWhile_append]
  by_cases hd : (w.reverse.dropWhile isPySpace).isEmpty = true
  · simp [hd, List.dropWhile_cons, h, List.isEmpty_iff.mp hd]
  · simp [hd]

theorem rstripWs_decomp (x : List Char) :
    ∃ t, x = rstripWs x ++ t ∧ ∀ c ∈ t, isPySpace c = true := by
  refine ⟨(x.reverse.takeWhile isPySpace).reverse, ?_, ?_⟩
  · conv_lhs => rw [← List.reverse_reverse x,
      ← List.takeWhile_append_dropWhile isPySpace x.reverse]
    rw [List.reverse_append]
    rfl
  · intro c hc
    exact List.mem_takeWhile_imp (List.mem_reverse.mp hc)

theorem rstripNl_decomp (x : List Char) :
    ∃ t, x = rstripNl x ++ t ∧ ∀ c ∈ t, c = '\n' := by
  refine ⟨(x.reverse.takeWhile (· == '\n')).reverse, ?_, ?_⟩
  · conv_lhs => rw [← List.reverse_reverse x,
      ← List.takeWhile_append_dropWhile (· == '\n') x.reverse]
    rw [List.reverse_append]
    rfl
  · intro c hc
    have := List.mem_takeWhile_imp (List.mem_reverse.mp hc)
    simpa [beq_iff_eq] using this

theorem rstripNl_eq_self {s : List Char} (h : '\n' ∉ s) : rstripNl s = s := by
  obtain ⟨t, hs, ht⟩ := rstripNl_decomp s
  cases t with
  | nil => simpa using hs.symm
  | cons d t' =>
    exfalso
    apply h
    rw [hs]
    simp [ht d (by simp)]

theorem rstripWs_append_spaces {x t : List Char} (h : ∀ c ∈ t, isPySpace c = true) :
    rstripWs (x ++ t) = rstripWs x := by
  unfold rstripWs
  rw [List.reverse_append, dropWhile_append_of_all (fun c hc => h c (List.mem_reverse.mp hc))]

theorem stripWs_rstripNl (s : List Char) : stripWs (rstripNl s) = stripWs s := by
  obtain ⟨t, hs, ht⟩ := rstripNl_decomp s
  have hsp : ∀ c ∈ t, isPySpace c = true := by
    intro c hc
    rw [ht c hc]
    rfl
  conv_rhs => rw [hs]
  unfold stripWs lstripWs
  by_cases h : (rstripNl s).dropWhile isPySpace = []
  · rw [h, dropWhile_append_of_all (List.dropWhile_eq_nil_iff.mp h)]
    have : t.dropWhile isPySpace = [] := List.dropWhile_eq_nil_iff.mpr hsp
    rw [this]
  · rw [dropWhile_append_of_ne_nil h, rstripWs_append_spaces hsp]

theorem tableRowMatch_rstripNl (s : List Char) : tableRowMatch (rstripNl s) = tableRowMatch s := by
  unfold tableRowMatch
  rw [stripWs_rstripNl]

theorem quoteMatch_rstripNl {s : List Char} (h : quoteMatch (rstripNl s) = true) :
    quoteMatch s = true := by
  obtain ⟨t, hs, ht⟩ := rstripNl_decomp s
  unfold quoteMatch lstripWs at h ⊢
  rw [beq_iff_eq] at h
  obtain ⟨w, hw⟩ : ∃ w, (rstripNl s).dropWhile isPySpace = '>' :: w := by
    cases hd : (rstripNl s).dropWhile isPySpace with
    | nil => rw [hd] at h; simp at h
    | cons c w => rw [hd] at h; cases h; exact ⟨w, rfl⟩
  conv_lhs => rw [hs]
  rw [dropWhile_append_of_ne_nil (by rw [hw]; simp), hw]
  simp

theorem markerSplit_append {r t m rest : List Char} (h : markerSplit r = some (m, rest)) :
    markerSplit (r ++ t) = some (m, rest ++ t) := by
  cases r with
  | nil => simp [markerSplit] at h
  | cons c r' =>
    rw [List.cons_append]
    simp only [markerSplit] at h ⊢
    by_cases h1 : isListMarkerChar c = true
    · rw [if_pos h1] at h ⊢
      simp only [Option.some_inj, Prod.mk.injEq] at h
      obtain ⟨hm, hrest⟩ := h
      subst hm
      subst hrest
      simp
    · rw [if_neg h1] at h ⊢
      by_cases h2 : c.isDigit = true
      · rw [if_pos h2] at h ⊢
        by_cases h3 : (((c :: r').dropWhile Char.isDigit).head? == some '.') = true
        · rw [if_pos h3] at h
          have hne : (c :: r').dropWhile Char.isDigit ≠ [] := by
            intro he
            rw [he] at h3
            simp at h3
          have hdw : (c :: (r' ++ t)).dropWhile Char.isDigit
              = (c :: r').dropWhile Char.isDigit ++ t := by
            rw [← List.cons_append]
            exact dropWhile_append_of_ne_nil hne
          have htw : (c :: (r' ++ t)).takeWhile Char.isDigit
              = (c :: r').takeWhile Char.isDigit := by
            rw [← List.cons_append]
            exact takeWhile_append_of_ne_nil hne
          obtain ⟨d, dw, hd⟩ : ∃ d dw, (c :: r').dropWhile Char.isDigit = d :: dw := by
            cases hx : (c :: r').dropWhile Char.isDigit with
            | nil => exact absurd hx hne
            | cons d dw => exact ⟨d, dw, rfl⟩
          rw [hdw, htw, hd, List.cons_append]
          rw [hd] at h3 h
          simp only [List.head?_cons] at h3 ⊢
          rw [if_pos h3]
          simp only [Option.some_inj, Prod.mk.injEq] at h
          obtain ⟨hm, hrest⟩ := h
          subst hm
          simp only [List.tail_cons] at hrest ⊢
          subst hrest
          simp
        · rw [if_neg h3] at h
          exact absurd h (by simp)
      · rw [if_neg h2] at h
        exact absurd h (by simp)

theorem listMatch_rstripNl {s : List Char} (h : (listMatch (rstripNl s)).isSome = true) :
    (listMatch s).isSome = true := by
  obtain ⟨t, hs, ht⟩ := rstripNl_decomp s
  have hsp : ∀ c ∈ t, isPySpace c = true := by
    intro c hc
    rw [ht c hc]
    rfl
  unfold listMatch at h ⊢
  cases hms : markerSplit ((rstripNl s).dropWhile isPySpace) with
  | none => rw [hms] at h; simp at h
  | some p =>
    obtain ⟨m, rest⟩ := p
    rw [hms] at h
    simp only at h
    by_cases hsp2 : (rest.takeWhile isPySpace).isEmpty = true
    · rw [if_pos hsp2] at h
      simp at h
    · have hne : (rstripNl s).dropWhile isPySpace ≠ [] := by
        intro he
        rw [he] at hms
        simp [markerSplit] at hms
      conv_lhs => rw [hs]
      rw [dropWhile_append_of_ne_nil hne, markerSplit_append hms]
      simp only
      have hrne : ∃ d rest', rest = d :: rest' ∧ isPySpace d = true := by
        cases hr : rest with
        | nil => rw [hr] at hsp2; simp at hsp2
        | cons d rest' =>
          rw [hr, List.takeWhile_cons] at hsp2
          by_cases hd : isPySpace d = true
          · exact ⟨d, rest', rfl, hd⟩
          · rw [if_neg hd] at hsp2; simp at hsp2
      obtain ⟨d, rest', hr, hd⟩ := hrne
      rw [hr, List.cons_append, List.takeWhile_cons, if_pos hd]
      simp

theorem listMatch_nonblank {s : List Char} (h : (listMatch s).isSome = true) :
    blankLine s = false := by
  unfold listMatch at h
  cases hms : markerSplit (s.dropWhile isPySpace) with
  | none => rw [hms] at h; simp at h
  | some p =>
    have hne : s.dropWhile isPySpace ≠ [] := by
      intro he
      rw [he] at hms
      simp [markerSplit] at hms
    simp [blankLine, lstripWs, List.isEmpty_iff, hne]

/-! ### Exclusivity of the line patterns -/

theorem stripWs_head {s : List Char} {c : Char} {w : List Char}
    (h : stripWs s = c :: w) : (lstripWs s).head? = some c := by
  obtain ⟨t, hd, _⟩ := rstripWs_decomp (lstripWs s)
  unfold stripWs at h
  rw [h] at hd
  rw [hd]
  simp

theorem fence_head {s : List Char} (h : fenceMatch s = true) :
    (lstripWs s).head? = some '\x60' := by
  unfold fenceMatch at h
  rw [List.isPrefixOf_iff_prefix] at h
  obtain ⟨u, hu⟩ := h
  rw [← hu]
  rfl

theorem quote_head {s : List Char} (h : quoteMatch s = true) :
    (lstripWs s).head? = some '>' := by
  unfold quoteMatch at h
  exact beq_iff_eq.mp h

theorem table_strip_head {s : List Char} (h : tableRowMatch s = true) :
    ∃ w, stripWs s = '|' :: w := by
  unfold tableRowMatch at h
  simp only [Bool.and_eq_true, beq_iff_eq, decide_eq_true_eq] at h
  cases hx : stripWs s with
  | nil => rw [hx] at h; simp at h
  | cons c w =>
    rw [hx] at h
    obtain ⟨⟨_, hc⟩, _⟩ := h
    simp only [List.head?_cons, Option.some_inj] at hc
    exact ⟨w, by rw [hc]⟩

theorem fence_nonblank {s : List Char} (h : fenceMatch s = true) : blankLine s = false := by
  have hh := fence_head h
  unfold blankLine
  cases hx : lstripWs s with
  | nil => rw [hx] at hh; simp at hh
  | cons c w => simp

theorem quote_nonblank {s : List Char} (h : quoteMatch s = true) : blankLine s = false := by
  have hh := quote_head h
  unfold blankLine
  cases hx : lstripWs s with
  | nil => rw [hx] at hh; simp at hh
  | cons c w => simp

theorem table_nonblank {s : List Char} (h : tableRowMatch s = true) : blankLine s = false := by
  obtain ⟨w, hw⟩ := table_strip_head h
  have hh := stripWs_head hw
  unfold blankLine
  cases hx : lstripWs s with
  | nil => rw [hx] at hh; simp at hh
  | cons c w' => simp

theorem quote_not_fence {s : List Char} (h : quoteMatch s = true) : fenceMatch s = false := by
  by_contra hf
  have hf' : fenceMatch s = true := by
    cases hx : fenceMatch s with
    | false => exact absurd hx hf
    | true => rfl
  have h1 := quote_head h
  have h2 := fence_head hf'
  rw [h1] at h2
  cases h2

theorem head_not_hash_heading {s : List Char} (h : s.head? ≠ some '#') :
    headingMatch s = none := by
  unfold headingMatch
  have : s.takeWhile (· == '#') = [] := by
    cases s with
    | nil => rfl
    | cons c r =>
      rw [List.takeWhile_cons]
      by_cases hc : c = '#'
      · exact absurd (by rw [hc]; rfl) h
      · simp [hc]
  rw [this]
  simp

theorem lstrip_head_not_hash_heading {s : List Char} {c : Char}
    (h : (lstripWs s).head? = some c) (hc : c ≠ '#') : headingMatch s = none := by
  apply head_not_hash_heading
  intro hh
  cases s with
  | nil => simp at hh
  | cons d r =>
    simp only [List.head?_cons, Option.some_inj] at hh
    have hd : isPySpace d = false := by
      cases hx : isPySpace d with
      | false => rfl
      | true => simp [hh] at hx; exact absurd hx (by decide)
    have : lstripWs (d :: r) = d :: r := by
      unfold lstripWs
      rw [List.dropWhile_cons, if_neg (by simp [hd])]
    rw [this] at h
    simp only [List.head?_cons, Option.some_inj] at h
    exact hc (by rw [← h, hh])

theorem quote_not_heading {s : List Char} (h : quoteMatch s = true) : headingMatch s = none :=
  lstrip_head_not_hash_heading (quote_head h) (by decide)

theorem table_not_heading {s : List Char} (h : tableRowMatch s = true) : headingMatch s = none := by
  obtain ⟨w, hw⟩ := table_strip_head h
  exact lstrip_head_not_hash_heading (stripWs_head hw) (by decide)

theorem quote_not_hr {s : List Char} (h : quoteMatch s = true) : hrMatch s = false := by
  have hh := quote_head h
  obtain ⟨w, hw⟩ : ∃ w, lstripWs s = '>' :: w := by
    cases hx : lstripWs s with
    | nil => rw [hx] at hh; simp at hh
    | cons c w =>
      rw [hx] at hh
      simp only [List.head?_cons, Option.some_inj] at hh
      exact ⟨w, by rw [← hh]⟩
  have hst : stripWs s = '>' :: rstripWs w := by
    unfold stripWs
    rw [hw, rstripWs_cons (by decide)]
  unfold hrMatch
  rw [hst]
  simp only [Bool.or_eq_false_iff, beq_eq_false_iff_ne]
  refine ⟨⟨?_, ?_⟩, ?_⟩ <;> intro he <;>
    (have hne := congrArg List.head? he; simp at hne)

theorem table_not_hr {s : List Char} (h : tableRowMatch s = true) : hrMatch s = false := by
  obtain ⟨w, hw⟩ := table_strip_head h
  unfold hrMatch
  rw [hw]
  simp only [Bool.or_eq_false_iff, beq_eq_false_iff_ne]
  refine ⟨⟨?_, ?_⟩, ?_⟩ <;> intro he <;>
    (have hne := congrArg List.head? he; simp at hne)

theorem table_not_fence {s : List Char} (h : tableRowMatch s = true) : fenceMatch s = false := by
  obtain ⟨w, hw⟩ := table_strip_head h
  have hh := stripWs_head hw
  by_contra hf
  have hf' : fenceMatch s = true := by
    cases hx : fenceMatch s with
    | false => exact absurd hx hf
    | true => rfl
  have h2 := fence_head hf'
  rw [hh] at h2
  cases h2

theorem table_not_quote {s : List Char} (h : tableRowMatch s = true) : quoteMatch s = false := by
  obtain ⟨w, hw⟩ := table_strip_head h
  have hh := stripWs_head hw
  unfold quoteMatch
  rw [hh]
  decide

/-! ### Gather-loop lemmas -/

theorem gatherUntilF_ge (lines : List Line) (pred : Line → Bool) :
    ∀ f i, i ≤ (gatherUntilF lines pred f i).2
  | 0, i => Nat.le_refl i
  | f + 1, i => by
    unfold gatherUntilF
    by_cases h : i < lines.length ∧ pred (lineAt lines i) = true
    · rw [if_pos h]
      exact Nat.le_trans (Nat.le_succ i) (gatherUntilF_ge lines pred f (i + 1))
    · rw [if_neg h]

theorem gatherUntilF_le (lines : List Line) (pred : Line → Bool) :
    ∀ f i, i ≤ lines.length → (gatherUntilF lines pred f i).2 ≤ lines.length
  | 0, i, hi => hi
  | f + 1, i, hi => by
    unfold gatherUntilF
    by_cases h : i < lines.length ∧ pred (lineAt lines i) = true
    · rw [if_pos h]
      exact gatherUntilF_le lines pred f (i + 1) h.1
    · rw [if_neg h]
      exact hi

theorem gatherUntilF_stop {lines : List Line} {pred : Line → Bool} {i : Nat}
    (h : ¬(i < lines.length ∧ pred (lineAt lines i) = true)) :
    ∀ f, gatherUntilF lines pred f i = ([], i)
  | 0 => rfl
  | f + 1 => by
    conv_lhs => unfold gatherUntilF
    rw [if_neg h]

theorem gatherUntilF_step {lines : List Line} {pred : Line → Bool} {i : Nat}
    (h : i < lines.length ∧ pred (lineAt lines i) = true) (f : Nat) :
    gatherUntilF lines pred (f + 1) i =
      (lineAt lines i :: (gatherUntilF lines pred f (i + 1)).1,
       (gatherUntilF lines pred f (i + 1)).2) := by
  conv_lhs => unfold gatherUntilF
  rw [if_pos h]

theorem gather_until_ge (lines : List Line) (pred : Line → Bool) (i : Nat) :
    i ≤ (gather_until lines pred i).2 :=
  gatherUntilF_ge lines pred (lines.length - i) i

theorem gather_until_le (lines : List Line) (pred : Line → Bool) (i : Nat)
    (hi : i ≤ lines.length) : (gather_until lines pred i).2 ≤ lines.length :=
  gatherUntilF_le lines pred (lines.length - i) i hi

theorem gather_until_progress {lines : List Line} {pred : Line → Bool} {i : Nat}
    (h1 : i < lines.length) (h2 : pred (lineAt lines i) = true) :
    i + 1 ≤ (gather_until lines pred i).2 := by
  unfold gather_until
  obtain ⟨f, hf⟩ : ∃ f, lines.length - i = f + 1 := ⟨lines.length - i - 1, by omega⟩
  rw [hf, gatherUntilF_step ⟨h1, h2⟩]
  exact gatherUntilF_ge lines pred f (i + 1)

theorem gatherUntilF_all (lines : List Line) (pred : Line → Bool) :
    ∀ f i, i ≤ lines.length → lines.length - i ≤ f →
      (∀ j, i ≤ j → j < lines.length → pred (lineAt lines j) = true) →
      gatherUntilF lines pred f i = (lines.drop i, lines.length)
  | 0, i, hi, hf, _ => by
    have : i = lines.length := by omega
    subst this
    simp [gatherUntilF, List.drop_length]
  | f + 1, i, hi, hf, hp => by
    by_cases h : i < lines.length
    · rw [gatherUntilF_step ⟨h, hp i (Nat.le_refl i) h⟩]
      rw [gatherUntilF_all lines pred f (i + 1) h (by omega)
        (fun j hj1 hj2 => hp j (by omega) hj2)]
      have hd : lines.drop i = lineAt lines i :: lines.drop (i + 1) := by
        unfold lineAt
        rw [List.getD_eq_getElem lines [] h]
        exact List.drop_eq_getElem_cons h
      rw [hd]
    · have he : i = lines.length := by omega
      subst he
      rw [gatherUntilF_stop (by simp)]
      simp [List.drop_length]

theorem gather_until_all {lines : List Line} {pred : Line → Bool} {i : Nat}
    (hi : i ≤ lines.length)
    (hp : ∀ j, i ≤ j → j < lines.length → pred (lineAt lines j) = true) :
    gather_until lines pred i = (lines.drop i, lines.length) :=
  gatherUntilF_all lines pred (lines.length - i) i hi (Nat.le_refl _) hp

theorem listGatherF_ge (lines : List Line) :
    ∀ f items j, j ≤ (listGatherF lines f items j).2
  | 0, _, j => Nat.le_refl j
  | f + 1, items, j => by
    unfold listGatherF
    by_cases h1 : j < lines.length
    · rw [if_pos h1]
      by_cases h2 : blankLine (lineAt lines j) = true
      · rw [if_pos h2]
      · rw [if_neg h2]
        cases hlm : listMatch (lineAt lines j) with
        | some p =>
          obtain ⟨ws, m, t⟩ := p
          exact Nat.le_trans (Nat.le_succ j) (listGatherF_ge lines f _ (j + 1))
        | none =>
          by_cases h3 : (!items.isEmpty && contIndent (lineAt lines j)) = true
          · rw [if_pos h3]
            exact Nat.le_trans (Nat.le_succ j) (listGatherF_ge lines f _ (j + 1))
          · rw [if_neg h3]
    · rw [if_neg h1]

theorem listGatherF_le (lines : List Line) :
    ∀ f items j, j ≤ lines.length → (listGatherF lines f items j).2 ≤ lines.length
  | 0, _, j, hj => hj
  | f + 1, items, j, hj => by
    unfold listGatherF
    by_cases h1 : j < lines.length
    · rw [if_pos h1]
      by_cases h2 : blankLine (lineAt lines j) = true
      · rw [if_pos h2]
        exact hj
      · rw [if_neg h2]
        cases hlm : listMatch (lineAt lines j) with
        | some p =>
          obtain ⟨ws, m, t⟩ := p
          exact listGatherF_le lines f _ (j + 1) h1
        | none =>
          by_cases h3 : (!items.isEmpty && contIndent (lineAt lines j)) = true
          · rw [if_pos h3]
            exact listGatherF_le lines f _ (j + 1) h1
          · rw [if_neg h3]
            exact hj
    · rw [if_neg h1]
      exact hj

theorem listGather_progress {lines : List Line} {i : Nat}
    (h1 : i < lines.length) (h2 : (listMatch (lineAt lines i)).isSome = true) :
    i + 1 ≤ (listGather lines [] i).2 := by
  unfold listGather
  obtain ⟨f, hf⟩ : ∃ f, lines.length - i = f + 1 := ⟨lines.length - i - 1, by omega⟩
  rw [hf]
  unfold listGatherF
  rw [if_pos h1, if_neg (by rw [listMatch_nonblank h2]; exact Bool.false_ne_true)]
  obtain ⟨p, hp⟩ := Option.isSome_iff_exists.mp h2
  obtain ⟨ws, m, t⟩ := p
  rw [hp]
  exact listGatherF_ge lines f _ (i + 1)

theorem listGather_le (lines : List Line) (items : List (Nat × Line × List Line)) (j : Nat)
    (hj : j ≤ lines.length) : (listGather lines items j).2 ≤ lines.length :=
  listGatherF_le lines (lines.length - j) items j hj

theorem listGather_ge (lines : List Line) (items : List (Nat × Line × List Line)) (j : Nat) :
    j ≤ (listGather lines items j).2 :=
  listGatherF_ge lines (lines.length - j) items j

theorem paraGatherF_ge (lines : List Line) :
    ∀ f j, j ≤ (paraGatherF lines f j).2
  | 0, j => Nat.le_refl j
  | f + 1, j => by
    unfold paraGatherF
    by_cases h1 : j < lines.length
    · rw [if_pos h1]
      by_cases h2 : blankLine (lineAt lines j) = true
      · rw [if_pos h2]
      · rw [if_neg h2]
        by_cases h3 : (fenceMatch (lineAt lines j) || (headingMatch (lineAt lines j)).isSome ||
            hrMatch (lineAt lines j) || quoteMatch (lineAt lines j)) = true
        · rw [if_pos h3]
        · rw [if_neg h3]
          by_cases h4 : (tableRowMatch (lineAt lines j) ||
              (listMatch (lineAt lines j)).isSome) = true
          · rw [if_pos h4]
          · rw [if_neg h4]
            exact Nat.le_trans (Nat.le_succ j) (paraGatherF_ge lines f (j + 1))
    · rw [if_neg h1]

theorem paraGatherF_le (lines : List Line) :
    ∀ f j, j ≤ lines.length → (paraGatherF lines f j).2 ≤ lines.length
  | 0, _, hj => hj
  | f + 1, j, hj => by
    unfold paraGatherF
    by_cases h1 : j < lines.length
    · rw [if_pos h1]
      by_cases h2 : blankLine (lineAt lines j) = true
      · rw [if_pos h2]
        exact hj
      · rw [if_neg h2]
        by_cases h3 : (fenceMatch (lineAt lines j) || (headingMatch (lineAt lines j)).isSome ||
            hrMatch (lineAt lines j) || quoteMatch (lineAt lines j)) = true
        · rw [if_pos h3]
          exact hj
        · rw [if_neg h3]
          by_cases h4 : (tableRowMatch (lineAt lines j) ||
              (listMatch (lineAt lines j)).isSome) = true
          · rw [if_pos h4]
            exact hj
          · rw [if_neg h4]
            exact paraGatherF_le lines f (j + 1) h1
    · rw [if_neg h1]
      exact hj

theorem paraGather_ge (lines : List Line) (j : Nat) : j ≤ (paraGather lines j).2 :=
  paraGatherF_ge lines (lines.length - j) j

theorem paraGather_le (lines : List Line) (j : Nat) (hj : j ≤ lines.length) :
    (paraGather lines j).2 ≤ lines.length :=
  paraGatherF_le lines (lines.length - j) j hj

/-! ### Progress of the main scan -/

theorem segStep_progress (lines : List Line) (i : Nat) (h : i < lines.length) :
    i < (segStep lines i).2 ∧ (segStep lines i).2 ≤ lines.length := by
  unfold segStep
  by_cases hb : blankLine (rstripNl (lineAt lines i)) = true
  · rw [if_pos hb]
    exact ⟨Nat.lt_succ_self i, h⟩
  · rw [if_neg hb]
    by_cases hf : fenceMatch (rstripNl (lineAt lines i)) = true
    · rw [if_pos hf]
      dsimp only
      have hge := gather_until_ge lines (fun s => !fenceMatch s) (i + 1)
      have hle := gather_until_le lines (fun s => !fenceMatch s) (i + 1) h
      constructor <;> split <;> omega
    · rw [if_neg hf]
      cases hh : headingMatch (rstripNl (lineAt lines i)) with
      | some p =>
        obtain ⟨lvl, t⟩ := p
        exact ⟨Nat.lt_succ_self i, h⟩
      | none =>
        by_cases hhr : hrMatch (rstripNl (lineAt lines i)) = true
        · rw [if_pos hhr]
          exact ⟨Nat.lt_succ_self i, h⟩
        · rw [if_neg hhr]
          by_cases hq : quoteMatch (rstripNl (lineAt lines i)) = true
          · rw [if_pos hq]
            dsimp only
            have hq2 : quoteMatch (lineAt lines i) = true := quoteMatch_rstripNl hq
            have hpr := @gather_until_progress lines (fun s => quoteMatch s) i h hq2
            have hle := gather_until_le lines (fun s => quoteMatch s) i (Nat.le_of_lt h)
            omega
          · rw [if_neg hq]
            by_cases ht : tableRowMatch (rstripNl (lineAt lines i)) = true
            · rw [if_pos ht]
              dsimp only
              have ht2 : tableRowMatch (lineAt lines i) = true := by
                rw [← tableRowMatch_rstripNl]
                exact ht
              have hpr := @gather_until_progress lines (fun s => tableRowMatch s) i h ht2
              have hle := gather_until_le lines (fun s => tableRowMatch s) i (Nat.le_of_lt h)
              omega
            · rw [if_neg ht]
              cases hl : listMatch (rstripNl (lineAt lines i)) with
              | some p =>
                dsimp only
                have hl2 : (listMatch (lineAt lines i)).isSome = true :=
                  listMatch_rstripNl (by rw [hl]; rfl)
                have hpr := listGather_progress h hl2
                have hle := listGather_le lines [] i (Nat.le_of_lt h)
                omega
              | none =>
                dsimp only
                have hpr := paraGather_ge lines (i + 1)
                have hle := paraGather_le lines (i + 1) h
                omega

theorem segmentFromF_past {lines : List Line} {i : Nat} (h : ¬ i < lines.length) :
    ∀ f, segmentFromF lines f i = []
  | 0 => rfl
  | f + 1 => by
    conv_lhs => unfold segmentFromF
    rw [if_neg h]

theorem chainFrom_nil {a n : Nat} :
    ChainFrom a n ([] : List (Option MdBlock × Nat × Nat)) ↔ a = n :=
  Iff.rfl

theorem chainFrom_cons {a n : Nat} {x : Option MdBlock × Nat × Nat}
    {tr : List (Option MdBlock × Nat × Nat)} :
    ChainFrom a n (x :: tr) ↔ x.2.1 = a ∧ a < x.2.2 ∧ x.2.2 ≤ n ∧ ChainFrom x.2.2 n tr :=
  Iff.rfl

theorem segmentFromF_chain (lines : List Line) :
    ∀ f i, i ≤ lines.length → lines.length - i ≤ f →
      ChainFrom i lines.length (segmentFromF lines f i)
  | 0, i, hi, hf => by
    have he : i = lines.length := by omega
    subst he
    rw [segmentFromF, chainFrom_nil]
  | f + 1, i, hi, hf => by
    by_cases h : i < lines.length
    · have hpr := segStep_progress lines i h
      conv in segmentFromF lines (f + 1) i => unfold segmentFromF
      rw [if_pos h, chainFrom_cons]
      refine ⟨rfl, hpr.1, hpr.2, ?_⟩
      exact segmentFromF_chain lines f (segStep lines i).2 hpr.2 (by omega)
    · rw [segmentFromF_past h, chainFrom_nil]
      omega

theorem segmentFrom_chain (lines : List Line) :
    ChainFrom 0 lines.length (segmentFrom lines 0) :=
  segmentFromF_chain lines (lines.length - 0) 0 (Nat.zero_le _) (Nat.le_refl _)

theorem chainFrom_mem {n : Nat} :
    ∀ {tr : List (Option MdBlock × Nat × Nat)} {a : Nat}, ChainFrom a n tr →
      ∀ x ∈ tr, a ≤ x.2.1 ∧ x.2.1 < x.2.2 ∧ x.2.2 ≤ n
  | [], _, _, x, hx => by cases hx
  | y :: tr, a, h, x, hx => by
    obtain ⟨h1, h2, h3, h4⟩ := chainFrom_cons.mp h
    rcases List.mem_cons.mp hx with he | hm
    · subst he
      exact ⟨Nat.le_of_eq h1.symm, by omega, h3⟩
    · have := chainFrom_mem h4 x hm
      refine ⟨?_, this.2.1, this.2.2⟩
      omega

theorem chainFrom_pairwise {n : Nat} :
    ∀ {tr : List (Option MdBlock × Nat × Nat)} {a : Nat}, ChainFrom a n tr →
      List.Pairwise (fun x y => x.2.2 ≤ y.2.1) tr
  | [], _, _ => List.Pairwise.nil
  | y :: tr, a, h => by
    obtain ⟨h1, h2, h3, h4⟩ := chainFrom_cons.mp h
    refine List.Pairwise.cons ?_ (chainFrom_pairwise h4)
    intro x hx
    exact (chainFrom_mem h4 x hx).1

theorem pairwise_filterMap {α β : Type} {R : α → α → Prop} {S : β → β → Prop}
    {g : α → Option β}
    (hg : ∀ x y, R x y → ∀ r ∈ g x, ∀ q ∈ g y, S r q) :
    ∀ {l : List α}, List.Pairwise R l → List.Pairwise S (l.filterMap g)
  | [], _ => by simp
  | x :: l, h => by
    rw [List.filterMap_cons]
    cases hgx : g x with
    | none => exact pairwise_filterMap hg h.of_cons
    | some r =>
      refine List.Pairwise.cons ?_ (pairwise_filterMap hg h.of_cons)
      intro q hq
      obtain ⟨y, hy, hgy⟩ := List.mem_filterMap.mp hq
      exact hg x y (List.rel_of_pairwise_cons h hy) r (by rw [hgx]; rfl) q
        (by rw [hgy]; rfl)

/-! ### Inline-translator lemmas -/

theorem xml_escape_cons (c : Char) (s : List Char) :
    xml_escape (c :: s) = escChar c ++ xml_escape s := rfl

theorem xml_escape_append (a b : List Char) :
    xml_escape (a ++ b) = xml_escape a ++ xml_escape b := by
  induction a with
  | nil => rfl
  | cons c w ih =>
    rw [List.cons_append, xml_escape_cons, xml_escape_cons, ih, List.append_assoc]

theorem xml_escape_no_angle (s : List Char) :
    ((xml_escape s).all (fun c => !(c == '<') && !(c == '>'))) = true := by
  induction s with
  | nil => rfl
  | cons c w ih =>
    rw [xml_escape_cons, List.all_append, ih, Bool.and_true]
    unfold escChar
    by_cases h1 : (c == '&') = true
    · rw [if_pos h1]
      rfl
    · rw [if_neg h1]
      by_cases h2 : (c == '<') = true
      · rw [if_pos h2]
        rfl
      · rw [if_neg h2]
        by_cases h3 : (c == '>') = true
        · rw [if_pos h3]
          rfl
        · rw [if_neg h3]
          simp [h2, h3]

theorem splitAtTick_length :
    ∀ {r a b : List Char}, splitAtTick r = some (a, b) → a.length + b.length + 1 = r.length
  | [], a, b, h => by simp [splitAtTick] at h
  | c :: r, a, b, h => by
    simp only [splitAtTick] at h
    by_cases hc : (c == '\x60') = true
    · rw [if_pos hc] at h
      simp only [Option.some_inj, Prod.mk.injEq] at h
      obtain ⟨ha, hb⟩ := h
      subst ha
      subst hb
      simp
    · rw [if_neg hc] at h
      cases hs : splitAtTick r with
      | none => rw [hs] at h; cases h
      | some p =>
        obtain ⟨a2, b2⟩ := p
        rw [hs] at h
        simp only [Option.some_inj, Prod.mk.injEq] at h
        obtain ⟨ha, hb⟩ := h
        subst ha
        subst hb
        have := splitAtTick_length hs
        simp only [List.length_cons]
        omega

theorem splitAtBold_length :
    ∀ {r a b : List Char}, splitAtBold r = some (a, b) → a.length + b.length + 2 = r.length
  | [], a, b, h => by simp [splitAtBold] at h
  | c :: r, a, b, h => by
    simp only [splitAtBold] at h
    by_cases hc : (c == '*' && r.head? == some '*') = true
    · rw [if_pos hc] at h
      simp only [Option.some_inj, Prod.mk.injEq] at h
      obtain ⟨ha, hb⟩ := h
      subst ha
      subst hb
      obtain ⟨d, r', rfl⟩ : ∃ d r', r = d :: r' := by
        cases r with
        | nil => simp at hc
        | cons d r' => exact ⟨d, r', rfl⟩
      simp
    · rw [if_neg hc] at h
      cases hs : splitAtBold r with
      | none => rw [hs] at h; cases h
      | some p =>
        obtain ⟨a2, b2⟩ := p
        rw [hs] at h
        simp only [Option.some_inj, Prod.mk.injEq] at h
        obtain ⟨ha, hb⟩ := h
        subst ha
        subst hb
        have := splitAtBold_length hs
        simp only [List.length_cons]
        omega

theorem breakAtDelim_len : ∀ r : List Char, (breakAtDelim r).2.length ≤ r.length
  | [] => Nat.le_refl 0
  | c :: r => by
    simp only [breakAtDelim]
    by_cases h1 : (c == '\x60') = true
    · rw [if_pos h1]
    · rw [if_neg h1]
      by_cases h2 : (c == '*' && r.head? == some '*') = true
      · rw [if_pos h2]
      · rw [if_neg h2]
        exact Nat.le_trans (breakAtDelim_len r) (Nat.le_succ _)

theorem inlineScanF_renders :
    ∀ f l, l.length ≤ f → inlineScanF f l = runsRender (runsOfF f l)
  | f, [], _ => by cases f <;> rfl
  | 0, c :: r, h => by simp at h
  | f + 1, c :: r, h => by
    have hr : r.length ≤ f := by
      simp only [List.length_cons] at h
      omega
    simp only [inlineScanF, runsOfF]
    by_cases hc : (c == '\x60') = true
    · rw [if_pos hc, if_pos hc]
      cases hs : splitAtTick r with
      | none => simp [runsRender, runMarkup]
      | some p =>
        obtain ⟨a, b⟩ := p
        have hlen := splitAtTick_length hs
        have hb : b.length ≤ f := by omega
        simp [runsRender, runMarkup, List.append_assoc, inlineScanF_renders f b hb]
    · rw [if_neg hc, if_neg hc]
      by_cases hb : (c == '*' && r.head? == some '*') = true
      · rw [if_pos hb, if_pos hb]
        cases hs : splitAtBold r.tail with
        | none => simp [runsRender, runMarkup]
        | some p =>
          obtain ⟨a, b⟩ := p
          have hlen := splitAtBold_length hs
          have htl : r.tail.length ≤ r.length := by
            cases r <;> simp
          have hb2 : b.length ≤ f := by omega
          simp [runsRender, runMarkup, List.append_assoc, inlineScanF_renders f b hb2]
      · rw [if_neg hb, if_neg hb]
        have hlen := breakAtDelim_len r
        have hb2 : (breakAtDelim r).2.length ≤ f := by omega
        simp [runsRender, runMarkup, List.append_assoc,
          inlineScanF_renders f (breakAtDelim r).2 hb2]

theorem inlineScan_renders (l : List Char) : inlineScan l = runsRender (runsOf l) :=
  inlineScanF_renders l.length l (Nat.le_refl _)

theorem hasTick_cons {c : Char} {s : List Char} (h : hasTick (c :: s) = false) :
    (c == '\x60') = false ∧ hasTick s = false := by
  rw [hasTick, List.contains_cons] at h
  simp only [Bool.or_eq_false_iff] at h
  refine ⟨?_, h.2⟩
  rw [beq_eq_false_iff_ne]
  exact Ne.symm (beq_eq_false_iff_ne.mp h.1)

theorem hasBoldTok_cons {c : Char} {s : List Char} (h : hasBoldTok (c :: s) = false) :
    (c == '*' && s.head? == some '*') = false ∧ hasBoldTok s = false := by
  simp only [hasBoldTok, Bool.or_eq_false_iff] at h
  exact h

theorem splitAtTick_none : ∀ {t : List Char}, hasTick t = false → splitAtTick t = none
  | [], _ => rfl
  | c :: r, h => by
    obtain ⟨hc, hr⟩ := hasTick_cons h
    simp only [splitAtTick]
    rw [if_neg (by rw [hc]; exact Bool.false_ne_true), splitAtTick_none hr]

theorem splitAtBold_none : ∀ {v : List Char}, hasBoldTok v = false → splitAtBold v = none
  | [], _ => rfl
  | c :: r, h => by
    obtain ⟨hc, hr⟩ := hasBoldTok_cons h
    simp only [splitAtBold]
    rw [if_neg (by rw [hc]; exact Bool.false_ne_true), splitAtBold_none hr]

theorem breakAtDelim_plain_tick :
    ∀ {s : List Char}, hasTick s = false → hasBoldTok s = false →
      ∀ t : List Char, breakAtDelim (s ++ '\x60' :: t) = (s, '\x60' :: t)
  | [], _, _, t => by
    simp only [List.nil_append, breakAtDelim]
    rw [if_pos (show ('\x60' == '\x60') = true from rfl)]
  | c :: s', h1, h2, t => by
    obtain ⟨hc, h1'⟩ := hasTick_cons h1
    obtain ⟨hcb, h2'⟩ := hasBoldTok_cons h2
    rw [List.cons_append]
    simp only [breakAtDelim]
    rw [if_neg (by rw [hc]; exact Bool.false_ne_true)]
    have hcond2 : (c == '*' && ((s' ++ '\x60' :: t).head? == some '*')) = false := by
      cases s' with
      | nil => simp
      | cons d s'' =>
        simp only [List.cons_append, List.head?_cons]
        simpa using hcb
    rw [if_neg (by rw [hcond2]; exact Bool.false_ne_true)]
    rw [breakAtDelim_plain_tick h1' h2' t]

theorem breakAtDelim_plain_bold :
    ∀ {s : List Char}, hasTick s = false → hasBoldTok s = false → endsStar s = false →
      ∀ v : List Char, breakAtDelim (s ++ '*' :: '*' :: v) = (s, '*' :: '*' :: v)
  | [], _, _, _, v => by
    simp only [List.nil_append, breakAtDelim]
    rw [if_neg (by decide),
      if_pos (show ('*' == '*' && (('*' :: v).head? == some '*')) = true from rfl)]
  | c :: s', h1, h2, h3, v => by
    obtain ⟨hc, h1'⟩ := hasTick_cons h1
    obtain ⟨hcb, h2'⟩ := hasBoldTok_cons h2
    rw [List.cons_append]
    simp only [breakAtDelim]
    rw [if_neg (by rw [hc]; exact Bool.false_ne_true)]
    have hcond2 : (c == '*' && ((s' ++ '*' :: '*' :: v).head? == some '*')) = false := by
      cases s' with
      | nil =>
        simp only [List.nil_append, List.head?_cons]
        have hcs : (c == '*') = false := by
          simpa [endsStar] using h3
        simp [hcs]
      | cons d s'' =>
        simp only [List.cons_append, List.head?_cons]
        simpa using hcb
    rw [if_neg (by rw [hcond2]; exact Bool.false_ne_true)]
    have h3' : endsStar s' = false := by
      cases s' with
      | nil => rfl
      | cons d s'' =>
        simpa [endsStar, List.getLast?_cons_cons] using h3
    rw [breakAtDelim_plain_bold h1' h2' h3' v]

theorem inlineScanF_tick_none {t : List Char} (f : Nat) (ht : splitAtTick t = none) :
    inlineScanF (f + 1) ('\x60' :: t) = xml_escape ('\x60' :: t) := by
  simp only [inlineScanF]
  rw [if_pos (show ('\x60' == '\x60') = true from rfl), ht]

theorem inlineScanF_bold_none {v : List Char} (f : Nat) (hv : splitAtBold v = none) :
    inlineScanF (f + 1) ('*' :: '*' :: v) = xml_escape ('*' :: '*' :: v) := by
  simp only [inlineScanF]
  rw [if_neg (by decide),
    if_pos (show ('*' == '*' && (('*' :: v).head? == some '*')) = true from rfl)]
  simp only [List.tail_cons]
  rw [hv]

theorem inlineScan_unterminated_tick {s t : List Char}
    (hs1 : hasTick s = false) (hs2 : hasBoldTok s = false) (ht : hasTick t = false) :
    inlineScan (s ++ '\x60' :: t) = xml_escape (s ++ '\x60' :: t) := by
  cases s with
  | nil =>
    simp only [List.nil_append]
    show inlineScanF ('\x60' :: t).length ('\x60' :: t) = _
    rw [List.length_cons]
    exact inlineScanF_tick_none t.length (splitAtTick_none ht)
  | cons c s' =>
    obtain ⟨hc, hs1'⟩ := hasTick_cons hs1
    obtain ⟨hcb, hs2'⟩ := hasBoldTok_cons hs2
    show inlineScanF ((c :: s') ++ '\x60' :: t).length ((c :: s') ++ '\x60' :: t) = _
    rw [List.cons_append, List.length_cons]
    simp only [inlineScanF]
    rw [if_neg (by rw [hc]; exact Bool.false_ne_true)]
    have hcond2 : (c == '*' && ((s' ++ '\x60' :: t).head? == some '*')) = false := by
      cases s' with
      | nil => simp
      | cons d s'' =>
        simp only [List.cons_append, List.head?_cons]
        simpa using hcb
    rw [if_neg (by rw [hcond2]; exact Bool.false_ne_true)]
    rw [breakAtDelim_plain_tick hs1' hs2' t]
    have hf : (s' ++ '\x60' :: t).length = (s'.length + t.length) + 1 := by
      simp only [List.length_append, List.length_cons]
      omega
    rw [hf, inlineScanF_tick_none (s'.length + t.length) (splitAtTick_none ht)]
    rw [← List.cons_append, ← xml_escape_append]

theorem inlineScan_unterminated_bold {u v : List Char}
    (hu1 : hasTick u = false) (hu2 : hasBoldTok u = false) (hu3 : endsStar u = false)
    (hv : hasBoldTok v = false) :
    inlineScan (u ++ '*' :: '*' :: v) = xml_escape (u ++ '*' :: '*' :: v) := by
  cases u with
  | nil =>
    simp only [List.nil_append]
    show inlineScanF ('*' :: '*' :: v).length ('*' :: '*' :: v) = _
    rw [List.length_cons]
    exact inlineScanF_bold_none _ (splitAtBold_none hv)
  | cons c u' =>
    obtain ⟨hc, hu1'⟩ := hasTick_cons hu1
    obtain ⟨hcb, hu2'⟩ := hasBoldTok_cons hu2
    show inlineScanF ((c :: u') ++ '*' :: '*' :: v).length ((c :: u') ++ '*' :: '*' :: v) = _
    rw [List.cons_append, List.length_cons]
    simp only [inlineScanF]
    rw [if_neg (by rw [hc]; exact Bool.false_ne_true)]
    have hcond2 : (c == '*' && ((u' ++ '*' :: '*' :: v).head? == some '*')) = false := by
      cases u' with
      | nil =>
        simp only [List.nil_append, List.head?_cons]
        have hcs : (c == '*') = false := by
          simpa [endsStar] using hu3
        simp [hcs]
      | cons d u'' =>
        simp only [List.cons_append, List.head?_cons]
        simpa using hcb
    rw [if_neg (by rw [hcond2]; exact Bool.false_ne_true)]
    have hu3' : endsStar u' = false := by
      cases u' with
      | nil => rfl
      | cons d u'' =>
        simpa [endsStar, List.getLast?_cons_cons] using hu3
    rw [breakAtDelim_plain_bold hu1' hu2' hu3' v]
    have hf : (u' ++ '*' :: '*' :: v).length = (u'.length + v.length + 1) + 1 := by
      simp only [List.length_append, List.length_cons]
      omega
    rw [hf, inlineScanF_bold_none _ (splitAtBold_none hv)]
    rw [← List.cons_append, ← xml_escape_append]

/-! ### Claims C1, C4, C8 -/

/-- C1 counterexample: the claim asserts that plain text is escaped for the
five XML-sensitive characters including the double quote.  On the one-character
input consisting of a double quote, the translator (and `xml_escape` itself,
which is `xml.sax.saxutils.escape` with its default entity table) emits the
double quote unchanged, not as an entity, so the quote characters are not
escaped. -/
theorem c1_escape_cex :
    inline_md_to_rl_markup [('"' : Char)] = [('"' : Char)] ∧
    xml_escape [('"' : Char)] = [('"' : Char)] :=
  ⟨rfl, rfl⟩

/-- C1 (amended): every plain-text segment and every code/bold span content is
passed through `xml_escape` before being wrapped in its markup — the scan
output is exactly the rendering of its run decomposition, where `runMarkup`
escapes every segment — and `xml_escape` escapes the three characters `&`,
`<`, `>` (its output contains no raw `<` or `>` at all), while the double
quote and the single quote (code point 39) pass through unescaped. -/
theorem c1_escape_amended :
    (∀ l : List Char, inlineScan l = runsRender (runsOf l)) ∧
    (∀ s : List Char, ((xml_escape s).all (fun c => !(c == '<') && !(c == '>'))) = true) ∧
    escChar '&' = ("&amp;".data) ∧ escChar '<' = ("&lt;".data) ∧
    escChar '>' = ("&gt;".data) ∧ escChar ('"') = [('"' : Char)] ∧
    escChar (Char.ofNat 39) = [Char.ofNat 39] :=
  ⟨inlineScan_renders, xml_escape_no_angle, rfl, rfl, rfl, rfl, rfl⟩

/-- C4: an opening delimiter (a single backtick, or a double asterisk) with no
matching closing delimiter later in the line makes the scan emit the
unterminated opening token and everything after it as escaped literal plain
text (the output is the plain escape of the whole remainder); the function is
total, so no error is raised. -/
theorem c4_unterminated_delims (s t u v : List Char)
    (hs1 : hasTick s = false) (hs2 : hasBoldTok s = false)
    (ht : hasTick t = false)
    (hu1 : hasTick u = false) (hu2 : hasBoldTok u = false) (hu3 : endsStar u = false)
    (hv : hasBoldTok v = false) :
    inlineScan (s ++ '\x60' :: t) = xml_escape (s ++ '\x60' :: t) ∧
    inlineScan (u ++ '*' :: '*' :: v) = xml_escape (u ++ '*' :: '*' :: v) :=
  ⟨inlineScan_unterminated_tick hs1 hs2 ht,
   inlineScan_unterminated_bold hu1 hu2 hu3 hv⟩

/-- Witness for C4 at concrete inputs `"a\x60b"` and `"a**b"`. -/
theorem c4_unterminated_delims_witness :
    inlineScan (['a'] ++ '\x60' :: ['b']) = xml_escape (['a'] ++ '\x60' :: ['b']) ∧
    inlineScan (['a'] ++ '*' :: '*' :: ['b']) = xml_escape (['a'] ++ '*' :: '*' :: ['b']) :=
  c4_unterminated_delims ['a'] ['b'] ['a'] ['b'] (by decide) (by decide) (by decide)
    (by decide) (by decide) (by decide) (by decide)

/-- C8: `normalize_dashes` maps every character through `dashSub`, which sends
each of the seven Unicode dash variants (hyphen U+2010, non-breaking hyphen
U+2011, figure dash U+2012, en dash U+2013, em dash U+2014, horizontal bar
U+2015, minus sign U+2212) to the ASCII hyphen-minus and keeps every other
character unchanged, and it is idempotent. -/
theorem c8_normalize_dashes :
    (∀ s : List Char, normalize_dashes s = s.map dashSub) ∧
    (∀ c : Char, dashSub c = if isUnicodeDash c then '-' else c) ∧
    (∀ c : Char, isUnicodeDash c = true ↔
      (c = '\u2010' ∨ c = '\u2011' ∨ c = '\u2012' ∨ c = '\u2013' ∨
       c = '\u2014' ∨ c = '\u2015' ∨ c = '\u2212')) ∧
    (∀ s : List Char, normalize_dashes (normalize_dashes s) = normalize_dashes s) := by
  have hidem : ∀ c : Char, dashSub (dashSub c) = dashSub c := by
    intro c
    by_cases hd : isUnicodeDash c = true
    · have h1 : dashSub c = '-' := by rw [dashSub, if_pos hd]
      rw [h1, dashSub, if_neg (show ¬isUnicodeDash '-' = true by decide)]
    · have h1 : dashSub c = c := by rw [dashSub, if_neg hd]
      rw [h1, h1]
  refine ⟨fun s => rfl, fun c => rfl, ?_, ?_⟩
  · intro c
    constructor
    · intro h
      simp only [isUnicodeDash, Bool.or_eq_true, beq_iff_eq] at h
      tauto
    · intro h
      simp only [isUnicodeDash, Bool.or_eq_true, beq_iff_eq]
      tauto
  · intro s
    induction s with
    | nil => rfl
    | cons c w ih =>
      show normalize_dashes (dashSub c :: normalize_dashes w) = _
      show dashSub (dashSub c) :: normalize_dashes (normalize_dashes w) = _
      rw [hidem c, ih]
      rfl

/-! ### Table-parser lemmas and C5 -/

theorem getLast?_replicate_pos {c : Char} : ∀ n : Nat, (List.replicate (n + 1) c).getLast? = some c
  | 0 => rfl
  | n + 1 => by
    rw [List.replicate_succ, List.replicate_succ, List.getLast?_cons_cons, ← List.replicate_succ]
    exact getLast?_replicate_pos n

theorem isSepCellPat_iff (s : Line) : isSepCellPat s = true ↔ SepCellSpec s := by
  constructor
  · intro h
    by_cases h1 : (s.head? == some ':') = true
    · obtain ⟨s1, rfl⟩ : ∃ s1, s = ':' :: s1 := by
        cases s with
        | nil => simp at h1
        | cons c s1 =>
          simp only [List.head?_cons, beq_iff_eq, Option.some_inj] at h1
          exact ⟨s1, by rw [h1]⟩
      by_cases h2 : (s1.getLast? == some ':') = true
      · rw [beq_iff_eq] at h2
        obtain ⟨b1, rfl⟩ := List.getLast?_eq_some_iff.mp h2
        simp only [isSepCellPat, List.head?_cons, beq_self_eq_true, if_true,
          List.drop_succ_cons, List.drop_zero, List.getLast?_concat,
          List.dropLast_concat, Bool.and_eq_true, decide_eq_true_eq,
          List.all_eq_true, beq_iff_eq] at h
        refine ⟨b1.length, h.1, Or.inr (Or.inr (Or.inr ?_))⟩
        rw [← List.eq_replicate_iff.mpr ⟨rfl, h.2⟩]
      · rw [Bool.not_eq_true] at h2
        simp only [isSepCellPat, List.head?_cons, beq_self_eq_true, if_true,
          List.drop_succ_cons, List.drop_zero, h2, Bool.false_eq_true, if_false,
          Bool.and_eq_true, decide_eq_true_eq, List.all_eq_true, beq_iff_eq] at h
        refine ⟨s1.length, h.1, Or.inr (Or.inl ?_)⟩
        rw [← List.eq_replicate_iff.mpr ⟨rfl, h.2⟩]
    · rw [Bool.not_eq_true] at h1
      by_cases h2 : (s.getLast? == some ':') = true
      · rw [beq_iff_eq] at h2
        obtain ⟨b1, rfl⟩ := List.getLast?_eq_some_iff.mp h2
        simp only [isSepCellPat, h1, Bool.false_eq_true, if_false,
          List.getLast?_concat, beq_self_eq_true, if_true,
          List.dropLast_concat, Bool.and_eq_true, decide_eq_true_eq,
          List.all_eq_true, beq_iff_eq] at h
        refine ⟨b1.length, h.1, Or.inr (Or.inr (Or.inl ?_))⟩
        rw [← List.eq_replicate_iff.mpr ⟨rfl, h.2⟩]
      · rw [Bool.not_eq_true] at h2
        simp only [isSepCellPat, h1, h2, Bool.false_eq_true, if_false,
          Bool.and_eq_true, decide_eq_true_eq, List.all_eq_true, beq_iff_eq] at h
        refine ⟨s.length, h.1, Or.inl ?_⟩
        rw [← List.eq_replicate_iff.mpr ⟨rfl, h.2⟩]
  · rintro ⟨n, hn, h | h | h | h⟩ <;> subst h <;>
      obtain ⟨m, rfl⟩ : ∃ m, n = m + 3 := ⟨n - 3, by omega⟩
    · have hh : (List.replicate (m + 3) '-').head? = some '-' := by
        rw [List.replicate_succ]
        rfl
      have hl : (List.replicate (m + 3) '-').getLast? = some '-' :=
        getLast?_replicate_pos (m + 2)
      simp only [isSepCellPat, hh]
      rw [if_neg (show ¬((some '-' : Option Char) == some ':') = true by decide), hl,
        if_neg (show ¬((some '-' : Option Char) == some ':') = true by decide)]
      simp [List.all_replicate, List.length_replicate, Nat.le_add_left]
    · have hl : (List.replicate (m + 3) '-').getLast? = some '-' :=
        getLast?_replicate_pos (m + 2)
      simp only [isSepCellPat, List.head?_cons]
      rw [if_pos (show ((some ':' : Option Char) == some ':') = true by decide)]
      simp only [List.drop_succ_cons, List.drop_zero]
      rw [hl, if_neg (show ¬((some '-' : Option Char) == some ':') = true by decide)]
      simp [List.all_replicate, List.length_replicate, Nat.le_add_left]
    · have hh : (List.replicate (m + 3) '-' ++ [':']).head? = some '-' := by
        rw [List.replicate_succ, List.cons_append]
        rfl
      simp only [isSepCellPat, hh]
      rw [if_neg (show ¬((some '-' : Option Char) == some ':') = true by decide),
        List.getLast?_concat,
        if_pos (show ((some ':' : Option Char) == some ':') = true by decide),
        List.dropLast_concat]
      simp [List.all_replicate, List.length_replicate, Nat.le_add_left]
    · simp only [isSepCellPat, List.head?_cons]
      rw [if_pos (show ((some ':' : Option Char) == some ':') = true by decide)]
      simp only [List.drop_succ_cons, List.drop_zero]
      rw [List.getLast?_concat,
        if_pos (show ((some ':' : Option Char) == some ':') = true by decide),
        List.dropLast_concat]
      simp [List.all_replicate, List.length_replicate, Nat.le_add_left]

theorem mem_le_foldr_max : ∀ {x : Nat} {xs : List Nat}, x ∈ xs → x ≤ xs.foldr Nat.max 0
  | x, y :: ys, h => by
    rw [List.foldr_cons]
    rcases List.mem_cons.mp h with rfl | hm
    · exact Nat.le_max_left _ _
    · exact Nat.le_trans (mem_le_foldr_max hm) (Nat.le_max_right _ _)

/-- C5: a row is a separator row iff every cell, stripped, is non-empty and
matches the pattern `:?-{3,}:?` (stated as `SepCellSpec`, the specification
wording); separator rows are filtered out of `tableDataRows`; and every row of
`parse_table_rows` is the corresponding data row right-padded with
empty-string cells, so its length equals the maximum observed cell count
`tableWidth`. -/
theorem c5_table_sep_rows :
    (∀ s : Line, isSepCellPat s = true ↔ SepCellSpec s) ∧
    (∀ cells : List Line, is_table_sep_row cells = true ↔
      ∀ c ∈ cells, stripWs c ≠ [] ∧ isSepCellPat (stripWs c) = true) ∧
    (∀ (lines : List Line) (r : List Line), r ∈ tableDataRows lines →
      is_table_sep_row r = false) ∧
    (∀ lines : List Line, parse_table_rows lines = (tableDataRows lines).map
      (fun r => r ++ List.replicate (tableWidth lines - r.length) ([] : Line))) ∧
    (∀ (lines : List Line) (r : List Line), r ∈ parse_table_rows lines →
      r.length = tableWidth lines) := by
  refine ⟨isSepCellPat_iff, ?_, ?_, fun lines => rfl, ?_⟩
  · intro cells
    unfold is_table_sep_row
    rw [List.all_eq_true]
    constructor
    · intro h c hc
      have hcc := h c hc
      simp only [Bool.and_eq_true, Bool.not_eq_eq_eq_not, Bool.not_true] at hcc
      refine ⟨?_, hcc.2⟩
      intro he
      rw [he] at hcc
      simp at hcc
    · intro h c hc
      have hcc := h c hc
      simp only [Bool.and_eq_true, Bool.not_eq_eq_eq_not, Bool.not_true]
      refine ⟨?_, hcc.2⟩
      cases hx : stripWs c with
      | nil => exact absurd hx hcc.1
      | cons d w => rfl
  · intro lines r hr
    unfold tableDataRows at hr
    have := (List.mem_filter.mp hr).2
    simpa using this
  · intro lines r hr
    unfold parse_table_rows at hr
    obtain ⟨r0, hr0, rfl⟩ := List.mem_map.mp hr
    have hle : r0.length ≤ tableWidth lines := by
      apply mem_le_foldr_max
      exact List.mem_map_of_mem List.length hr0
    simp only [List.length_append, List.length_replicate]
    omega

/-- Witness for C5 at a concrete two-column table whose separator row is
discarded. -/
theorem c5_table_sep_rows_witness :
    is_table_sep_row [("1".data), ("2".data)] = false ∧
    (([("1".data), ("2".data)] : List (List Char))).length =
      tableWidth [("| A | B |".data), ("|---|---|".data), ("| 1 | 2 |".data)] :=
  ⟨c5_table_sep_rows.2.2.1 [("| A | B |".data), ("|---|---|".data), ("| 1 | 2 |".data)]
      [("1".data), ("2".data)] (by decide),
   c5_table_sep_rows.2.2.2.2 [("| A | B |".data), ("|---|---|".data), ("| 1 | 2 |".data)]
      [("1".data), ("2".data)] (by decide)⟩

/-! ### Claims C6, C10, C2 -/

/-- C6: in the list-item gather of `build_pdf`, a line matching the
list-marker pattern starts a new item (recording its leading-whitespace count,
marker, and right-stripped text); the indent level used by the renderer is
`floor(whitespace-count / 2)`; a non-marker line that begins with two spaces
or a tab, once at least one item exists, is appended (stripped) to the most
recent item; a blank line or any other line stops the gather; and on the
input lines `"- a"`, `"  cont"`, `"- b"` the grouper yields exactly two items
whose rendered texts are `"- a cont"` and `"- b"`. -/
theorem c6_list_grouper :
    (∀ (lines : List Line) (f : Nat) (items : List (Nat × Line × List Line)) (j ws : Nat)
       (m t : Line),
       j < lines.length → listMatch (lineAt lines j) = some (ws, m, t) →
       listGatherF lines (f + 1) items j =
         listGatherF lines f (items ++ [(ws, m, [rstripWs t])]) (j + 1)) ∧
    (∀ (lines : List Line) (f : Nat) (items : List (Nat × Line × List Line)) (j : Nat),
       j < lines.length → blankLine (lineAt lines j) = true →
       listGatherF lines (f + 1) items j = (items, j)) ∧
    (∀ (lines : List Line) (f : Nat) (items : List (Nat × Line × List Line)) (j : Nat),
       j < lines.length → blankLine (lineAt lines j) = false →
       listMatch (lineAt lines j) = none →
       (!items.isEmpty && contIndent (lineAt lines j)) = true →
       listGatherF lines (f + 1) items j =
         listGatherF lines f (appendToLast items (stripWs (lineAt lines j))) (j + 1)) ∧
    (∀ (lines : List Line) (f : Nat) (items : List (Nat × Line × List Line)) (j : Nat),
       j < lines.length → blankLine (lineAt lines j) = false →
       listMatch (lineAt lines j) = none →
       (!items.isEmpty && contIndent (lineAt lines j)) = false →
       listGatherF lines (f + 1) items j = (items, j)) ∧
    (∀ ws : Nat, itemIndentLevel ws = ws / 2) ∧
    groupedListTexts [("- a".data), ("  cont".data), ("- b".data)] =
      [("- a cont".data), ("- b".data)] ∧
    (listGather [("- a".data), ("  cont".data), ("- b".data)] [] 0).1.length = 2 := by
  refine ⟨?_, ?_, ?_, ?_, fun ws => rfl, by decide, by decide⟩
  · intro lines f items j ws m t hj hlm
    have hnb : blankLine (lineAt lines j) = false := listMatch_nonblank (by rw [hlm]; rfl)
    conv_lhs => unfold listGatherF
    rw [if_pos hj, if_neg (by rw [hnb]; exact Bool.false_ne_true), hlm]
  · intro lines f items j hj hb
    conv_lhs => unfold listGatherF
    rw [if_pos hj, if_pos hb]
  · intro lines f items j hj hb hlm hcont
    conv_lhs => unfold listGatherF
    rw [if_pos hj, if_neg (by rw [hb]; exact Bool.false_ne_true), hlm]
    rw [if_pos hcont]
  · intro lines f items j hj hb hlm hcont
    conv_lhs => unfold listGatherF
    rw [if_pos hj, if_neg (by rw [hb]; exact Bool.false_ne_true), hlm]
    rw [if_neg (by rw [hcont]; exact Bool.false_ne_true)]

/-- Witness for C6: the first line of a one-line list starts a new item. -/
theorem c6_list_grouper_witness :
    listGatherF [("- a".data)] (0 + 1) [] 0 =
      listGatherF [("- a".data)] 0 ([] ++ [(0, ("-".data), [("a".data)])]) (0 + 1) :=
  c6_list_grouper.1 [("- a".data)] 0 [] 0 0 ("-".data) ("a".data) (by decide) (by decide)

/-- C10: each iteration of the Block Segmenter's main loop strictly advances
the scan position and stays within bounds; every gather loop's cursor never
moves backwards; and the inline translator's default chunk never grows the
remaining text.  These progress facts justify the (length-bounded) fuel of
every loop embedding, so the whole transform is a total function of the
input. -/
theorem c10_termination :
    (∀ (lines : List Line) (i : Nat), i < lines.length →
       i < (segStep lines i).2 ∧ (segStep lines i).2 ≤ lines.length) ∧
    (∀ (lines : List Line) (pred : Line → Bool) (i : Nat),
       i ≤ (gather_until lines pred i).2) ∧
    (∀ (lines : List Line) (items : List (Nat × Line × List Line)) (j : Nat),
       j ≤ (listGather lines items j).2) ∧
    (∀ (lines : List Line) (j : Nat), j ≤ (paraGather lines j).2) ∧
    (∀ r : List Char, (breakAtDelim r).2.length ≤ r.length) :=
  ⟨segStep_progress, gather_until_ge, listGather_ge, paraGather_ge, breakAtDelim_len⟩

/-- Witness for C10 on a one-line input. -/
theorem c10_termination_witness :
    0 < (segStep [("a".data)] 0).2 ∧ (segStep [("a".data)] 0).2 ≤ 1 :=
  c10_termination.1 [("a".data)] 0 (by decide)

/-- C2 counterexample: on the input consisting of one blank line, the scan
consumes the line but emits no Block, so the union of the Blocks' consumed
line ranges is empty and fails to cover line index 0 — the claimed
gap-freeness of the Blocks' ranges is false. -/
theorem c2_block_coverage_cex :
    blockRanges [([] : Line)] = [] ∧ ([([] : Line)] : List Line).length = 1 :=
  ⟨by decide, rfl⟩

/-- C2 (amended): the iterations of the single forward scan consume
non-empty consecutive ranges that tile the input index range exactly
(`ChainFrom 0 length`); every emitted Block's consumed range is one of these
iteration ranges, so Block ranges are non-empty, within bounds, strictly
increasing and non-overlapping; but an iteration that skips a blank line — or
gathers a table group whose rows are all filtered as separators — consumes
its range without emitting any Block, so the union of the Blocks' ranges can
be a strict subset of the input range. -/
theorem c2_block_coverage_amended :
    ∀ lines : List Line,
      ChainFrom 0 lines.length (segmentFrom lines 0) ∧
      (∀ r ∈ blockRanges lines, r.1 < r.2 ∧ r.2 ≤ lines.length) ∧
      List.Pairwise (fun r q => r.2 ≤ q.1) (blockRanges lines) := by
  intro lines
  have hch := segmentFrom_chain lines
  refine ⟨hch, ?_, ?_⟩
  · intro r hr
    unfold blockRanges at hr
    obtain ⟨x, hx, hfx⟩ := List.mem_filterMap.mp hr
    have hm := chainFrom_mem hch x hx
    cases hb : x.1 with
    | none =>
      rw [hb] at hfx
      cases hfx
    | some b =>
      rw [hb] at hfx
      simp only [Option.map_some', Option.some_inj] at hfx
      rw [← hfx]
      exact ⟨hm.2.1, hm.2.2⟩
  · unfold blockRanges
    refine pairwise_filterMap ?_ (chainFrom_pairwise hch)
    intro x y hxy r hrx q hqy
    rw [Option.mem_def] at hrx hqy
    cases hbx : x.1 with
    | none => rw [hbx] at hrx; cases hrx
    | some b =>
      cases hby : y.1 with
      | none => rw [hby] at hqy; cases hqy
      | some b2 =>
        rw [hbx] at hrx
        rw [hby] at hqy
        simp only [Option.map_some', Option.some_inj] at hrx hqy
        rw [← hrx, ← hqy]
        exact hxy

/-- Witness for C2 (amended) at a one-heading input whose only block range is
`(0, 1)`. -/
theorem c2_block_coverage_amended_witness :
    ((0, 1) : Nat × Nat).1 < ((0, 1) : Nat × Nat).2 ∧
      ((0, 1) : Nat × Nat).2 ≤ ([("# t".data)] : List Line).length :=
  (c2_block_coverage_amended [("# t".data)]).2.1 (0, 1) (by decide)

/-! ### Claim C3: priority order of the line patterns -/

theorem classifyLine_iff (l : Line) :
    (classifyLine l = LineKind.blankK ↔ blankLine l = true) ∧
    (classifyLine l = LineKind.fenceK ↔
      blankLine l = false ∧ fenceMatch l = true) ∧
    (classifyLine l = LineKind.headingK ↔
      blankLine l = false ∧ fenceMatch l = false ∧ (headingMatch l).isSome = true) ∧
    (classifyLine l = LineKind.hrK ↔
      blankLine l = false ∧ fenceMatch l = false ∧ (headingMatch l).isSome = false ∧
      hrMatch l = true) ∧
    (classifyLine l = LineKind.quoteK ↔
      blankLine l = false ∧ fenceMatch l = false ∧ (headingMatch l).isSome = false ∧
      hrMatch l = false ∧ quoteMatch l = true) ∧
    (classifyLine l = LineKind.tableK ↔
      blankLine l = false ∧ fenceMatch l = false ∧ (headingMatch l).isSome = false ∧
      hrMatch l = false ∧ quoteMatch l = false ∧ tableRowMatch l = true) ∧
    (classifyLine l = LineKind.listK ↔
      blankLine l = false ∧ fenceMatch l = false ∧ (headingMatch l).isSome = false ∧
      hrMatch l = false ∧ quoteMatch l = false ∧ tableRowMatch l = false ∧
      (listMatch l).isSome = true) ∧
    (classifyLine l = LineKind.paraK ↔
      blankLine l = false ∧ fenceMatch l = false ∧ (headingMatch l).isSome = false ∧
      hrMatch l = false ∧ quoteMatch l = false ∧ tableRowMatch l = false ∧
      (listMatch l).isSome = false) := by
  unfold classifyLine
  by_cases h1 : blankLine l = true <;>
  by_cases h2 : fenceMatch l = true <;>
  by_cases h3 : (headingMatch l).isSome = true <;>
  by_cases h4 : hrMatch l = true <;>
  by_cases h5 : quoteMatch l = true <;>
  by_cases h6 : tableRowMatch l = true <;>
  by_cases h7 : (listMatch l).isSome = true <;>
  simp [h1, h2, h3, h4, h5, h6, h7]

theorem paraGather_stop {lines : List Line} {j : Nat} (hj : j < lines.length)
    (h : blankLine (lineAt lines j) = true ∨ fenceMatch (lineAt lines j) = true ∨
         (headingMatch (lineAt lines j)).isSome = true ∨ hrMatch (lineAt lines j) = true ∨
         quoteMatch (lineAt lines j) = true ∨ tableRowMatch (lineAt lines j) = true ∨
         (listMatch (lineAt lines j)).isSome = true) :
    paraGather lines j = ([], j) := by
  unfold paraGather
  obtain ⟨f, hf⟩ : ∃ f, lines.length - j = f + 1 := ⟨lines.length - j - 1, by omega⟩
  rw [hf]
  conv_lhs => unfold paraGatherF
  rw [if_pos hj]
  by_cases h2 : blankLine (lineAt lines j) = true
  · rw [if_pos h2]
  · rw [if_neg h2]
    by_cases h3 : (fenceMatch (lineAt lines j) || (headingMatch (lineAt lines j)).isSome ||
        hrMatch (lineAt lines j) || quoteMatch (lineAt lines j)) = true
    · rw [if_pos h3]
    · rw [if_neg h3]
      have h4 : (tableRowMatch (lineAt lines j) || (listMatch (lineAt lines j)).isSome)
          = true := by
        rw [Bool.not_eq_true] at h2 h3
        simp only [Bool.or_eq_false_iff] at h3
        obtain ⟨⟨⟨hfc, hhd⟩, hhr⟩, hqt⟩ := h3
        rcases h with hx | hx | hx | hx | hx | hx | hx
        · rw [hx] at h2; cases h2
        · rw [hx] at hfc; cases hfc
        · rw [hx] at hhd; cases hhd
        · rw [hx] at hhr; cases hhr
        · rw [hx] at hqt; cases hqt
        · simp [hx]
        · simp [hx]
      rw [if_pos h4]

theorem segStep_tableK {lines : List Line} {i : Nat}
    (h : classifyLine (rstripNl (lineAt lines i)) = LineKind.tableK) :
    segStep lines i =
      (if (parse_table_rows (gather_until lines (fun s => tableRowMatch s) i).1).isEmpty then
         none
       else some (MdBlock.table (parse_table_rows (gather_until lines
         (fun s => tableRowMatch s) i).1)),
       (gather_until lines (fun s => tableRowMatch s) i).2) := by
  obtain ⟨hb, hf, hhd, hhr, hq, ht⟩ :=
    ((classifyLine_iff (rstripNl (lineAt lines i))).2.2.2.2.2.1).mp h
  have hhd2 : headingMatch (rstripNl (lineAt lines i)) = none :=
    Option.not_isSome_iff_eq_none.mp (by rw [hhd]; exact Bool.false_ne_true)
  unfold segStep
  rw [if_neg (by rw [hb]; exact Bool.false_ne_true),
    if_neg (by rw [hf]; exact Bool.false_ne_true), hhd2]
  rw [if_neg (by rw [hhr]; exact Bool.false_ne_true),
    if_neg (by rw [hq]; exact Bool.false_ne_true), if_pos ht]

/-- C3: the line classification of `build_pdf` tests the patterns in the fixed
priority order blank, code-fence, heading, horizontal rule, blockquote,
pipe-table row, list marker, else paragraph, and the first match wins (each
kind holds exactly when its pattern matches and all earlier ones fail); the
paragraph gather stops at the first line that is blank or matches any of the
six other block-start patterns — in particular a pipe-table row is never
consumed as a paragraph continuation; and a table-classified position makes
the scan perform the table gather. -/
theorem c3_priority_order :
    (∀ l : Line,
      (classifyLine l = LineKind.blankK ↔ blankLine l = true) ∧
      (classifyLine l = LineKind.fenceK ↔
        blankLine l = false ∧ fenceMatch l = true) ∧
      (classifyLine l = LineKind.headingK ↔
        blankLine l = false ∧ fenceMatch l = false ∧ (headingMatch l).isSome = true) ∧
      (classifyLine l = LineKind.hrK ↔
        blankLine l = false ∧ fenceMatch l = false ∧ (headingMatch l).isSome = false ∧
        hrMatch l = true) ∧
      (classifyLine l = LineKind.quoteK ↔
        blankLine l = false ∧ fenceMatch l = false ∧ (headingMatch l).isSome = false ∧
        hrMatch l = false ∧ quoteMatch l = true) ∧
      (classifyLine l = LineKind.tableK ↔
        blankLine l = false ∧ fenceMatch l = false ∧ (headingMatch l).isSome = false ∧
        hrMatch l = false ∧ quoteMatch l = false ∧ tableRowMatch l = true) ∧
      (classifyLine l = LineKind.listK ↔
        blankLine l = false ∧ fenceMatch l = false ∧ (headingMatch l).isSome = false ∧
        hrMatch l = false ∧ quoteMatch l = false ∧ tableRowMatch l = false ∧
        (listMatch l).isSome = true) ∧
      (classifyLine l = LineKind.paraK ↔
        blankLine l = false ∧ fenceMatch l = false ∧ (headingMatch l).isSome = false ∧
        hrMatch l = false ∧ quoteMatch l = false ∧ tableRowMatch l = false ∧
        (listMatch l).isSome = false)) ∧
    (∀ (lines : List Line) (j : Nat), j < lines.length →
      (blankLine (lineAt lines j) = true ∨ fenceMatch (lineAt lines j) = true ∨
       (headingMatch (lineAt lines j)).isSome = true ∨ hrMatch (lineAt lines j) = true ∨
       quoteMatch (lineAt lines j) = true ∨ tableRowMatch (lineAt lines j) = true ∨
       (listMatch (lineAt lines j)).isSome = true) →
      paraGather lines j = ([], j)) ∧
    (∀ (lines : List Line) (i : Nat),
      classifyLine (rstripNl (lineAt lines i)) = LineKind.tableK →
      segStep lines i =
        (if (parse_table_rows (gather_until lines (fun s => tableRowMatch s) i).1).isEmpty then
           none
         else some (MdBlock.table (parse_table_rows (gather_until lines
           (fun s => tableRowMatch s) i).1)),
         (gather_until lines (fun s => tableRowMatch s) i).2)) :=
  ⟨classifyLine_iff, fun _ _ hj h => paraGather_stop hj h, fun _ _ h => segStep_tableK h⟩

/-- Witness for C3: a pipe-table row is not consumed as a paragraph
continuation. -/
theorem c3_priority_order_witness :
    paraGather [("|x|".data)] 0 = ([], 0) :=
  c3_priority_order.2.1 [("|x|".data)] 0 (by decide)
    (Or.inr (Or.inr (Or.inr (Or.inr (Or.inr (Or.inl (by decide)))))))

/-! ### Claims C7 and C9 -/

theorem lineAt_mem {lines : List Line} {j : Nat} (h : j < lines.length) :
    lineAt lines j ∈ lines := by
  unfold lineAt
  rw [List.getD_eq_getElem lines [] h]
  exact List.getElem_mem h

/-- C7: a code fence opened and never closed before end of input still yields
a CodeBlock holding every remaining line after the opening fence, and end of
input during a blockquote gather still yields the Blockquote of all collected
lines; both cases terminate the scan with no error (the segmenter is a total
function).  Lines are newline-free, as produced by `splitlines`. -/
theorem c7_unterminated_gathers (l : Line) (rest qs : List Line)
    (hnl : '\n' ∉ l) (hfence : fenceMatch l = true)
    (hrest : ∀ s ∈ rest, fenceMatch s = false)
    (hqne : qs ≠ []) (hq : ∀ s ∈ qs, quoteMatch s = true)
    (hqnl : ∀ s ∈ qs, '\n' ∉ s) :
    segmentBlocks (l :: rest) = [MdBlock.codeBlock rest] ∧
    segmentBlocks qs =
      [MdBlock.blockquote (List.intercalate ['\n'] (qs.map quoteText))] := by
  constructor
  · have hline : rstripNl (lineAt (l :: rest) 0) = l := by
      unfold lineAt
      rw [List.getD_cons_zero]
      exact rstripNl_eq_self hnl
    have hg : gather_until (l :: rest) (fun s => !fenceMatch s) 1 =
        ((l :: rest).drop 1, (l :: rest).length) := by
      apply gather_until_all (by simp)
      intro j hj1 hj2
      obtain ⟨k, rfl⟩ : ∃ k, j = k + 1 := ⟨j - 1, by omega⟩
      have hk : k < rest.length := by
        simp only [List.length_cons] at hj2
        omega
      have hmem : lineAt (l :: rest) (k + 1) ∈ rest := by
        unfold lineAt
        rw [List.getD_cons_succ]
        exact lineAt_mem hk
      simp [hrest _ hmem]
    have hstep : segStep (l :: rest) 0 =
        (some (MdBlock.codeBlock rest), (l :: rest).length) := by
      unfold segStep
      rw [hline,
        if_neg (by rw [fence_nonblank hfence]; exact Bool.false_ne_true),
        if_pos hfence, hg]
      rw [if_neg (Nat.lt_irrefl _)]
      rfl
    unfold segmentBlocks segmentFrom
    rw [Nat.sub_zero, List.length_cons]
    conv_lhs => rw [segmentFromF]
    rw [if_pos (by simp), hstep]
    rw [show (l :: rest).length = rest.length + 1 from by simp]
    rw [segmentFromF_past (by simp)]
    simp [List.filterMap]
  · obtain ⟨q0, qrest, rfl⟩ : ∃ q0 qrest, qs = q0 :: qrest := by
      cases qs with
      | nil => exact absurd rfl hqne
      | cons q0 qrest => exact ⟨q0, qrest, rfl⟩
    have hq0 : quoteMatch q0 = true := hq q0 (by simp)
    have hline : rstripNl (lineAt (q0 :: qrest) 0) = q0 := by
      unfold lineAt
      rw [List.getD_cons_zero]
      exact rstripNl_eq_self (hqnl q0 (by simp))
    have hg : gather_until (q0 :: qrest) (fun s => quoteMatch s) 0 =
        ((q0 :: qrest).drop 0, (q0 :: qrest).length) := by
      apply gather_until_all (Nat.zero_le _)
      intro j _ hj2
      exact hq _ (lineAt_mem hj2)
    have hstep : segStep (q0 :: qrest) 0 =
        (some (MdBlock.blockquote (List.intercalate ['\n']
          ((q0 :: qrest).map quoteText))), (q0 :: qrest).length) := by
      unfold segStep
      rw [hline,
        if_neg (by rw [quote_nonblank hq0]; exact Bool.false_ne_true),
        if_neg (by rw [quote_not_fence hq0]; exact Bool.false_ne_true),
        quote_not_heading hq0,
        if_neg (by rw [quote_not_hr hq0]; exact Bool.false_ne_true),
        if_pos hq0, hg]
      rw [List.drop_zero]
    unfold segmentBlocks segmentFrom
    rw [Nat.sub_zero, List.length_cons]
    conv_lhs => rw [segmentFromF]
    rw [if_pos (by simp), hstep]
    rw [show (q0 :: qrest).length = qrest.length + 1 from by simp]
    rw [segmentFromF_past (by simp)]
    simp [List.filterMap]

/-- Witness for C7 at an unclosed fence over two lines and a two-line
blockquote reaching end of input. -/
theorem c7_unterminated_gathers_witness :
    segmentBlocks [("\x60\x60\x60".data), ("x".data)] =
      [MdBlock.codeBlock [("x".data)]] ∧
    segmentBlocks [("> a".data), ("> b".data)] =
      [MdBlock.blockquote (List.intercalate ['\n']
        ([("> a".data), ("> b".data)].map quoteText))] :=
  c7_unterminated_gathers ("\x60\x60\x60".data) [("x".data)]
    [("> a".data), ("> b".data)] (by decide) (by decide) (by decide) (by decide)
    (by decide) (by decide)

/-- C9: a gathered table group whose rows are all filtered out as separator
rows (zero data rows) emits no Table block, raises no error, and the scan
advances past all gathered lines to the end of the group. -/
theorem c9_all_separator_table (ts : List Line)
    (hne : ts ≠ []) (hnl : ∀ s ∈ ts, '\n' ∉ s)
    (ht : ∀ s ∈ ts, tableRowMatch s = true)
    (hrows : parse_table_rows ts = []) :
    segStep ts 0 = (none, ts.length) ∧ segmentBlocks ts = [] := by
  obtain ⟨t0, tr, rfl⟩ : ∃ t0 tr, ts = t0 :: tr := by
    cases ts with
    | nil => exact absurd rfl hne
    | cons t0 tr => exact ⟨t0, tr, rfl⟩
  have ht0 : tableRowMatch t0 = true := ht t0 (by simp)
  have hline : rstripNl (lineAt (t0 :: tr) 0) = t0 := by
    unfold lineAt
    rw [List.getD_cons_zero]
    exact rstripNl_eq_self (hnl t0 (by simp))
  have hg : gather_until (t0 :: tr) (fun s => tableRowMatch s) 0 =
      ((t0 :: tr).drop 0, (t0 :: tr).length) := by
    apply gather_until_all (Nat.zero_le _)
    intro j _ hj2
    exact ht _ (lineAt_mem hj2)
  have hstep : segStep (t0 :: tr) 0 = (none, (t0 :: tr).length) := by
    unfold segStep
    rw [hline,
      if_neg (by rw [table_nonblank ht0]; exact Bool.false_ne_true),
      if_neg (by rw [table_not_fence ht0]; exact Bool.false_ne_true),
      table_not_heading ht0,
      if_neg (by rw [table_not_hr ht0]; exact Bool.false_ne_true),
      if_neg (by rw [table_not_quote ht0]; exact Bool.false_ne_true),
      if_pos ht0, hg, List.drop_zero, hrows]
    rfl
  refine ⟨hstep, ?_⟩
  unfold segmentBlocks segmentFrom
  rw [Nat.sub_zero, List.length_cons]
  conv_lhs => rw [segmentFromF]
  rw [if_pos (by simp), hstep]
  rw [show (t0 :: tr).length = tr.length + 1 from by simp]
  rw [segmentFromF_past (by simp)]
  simp [List.filterMap]

/-- Witness for C9: a one-line group consisting of a separator row. -/
theorem c9_all_separator_table_witness :
    segStep [("|---|".data)] 0 = (none, ([("|---|".data)] : List Line).length) ∧
    segmentBlocks [("|---|".data)] = [] :=
  c9_all_separator_table [("|---|".data)] (by decide) (by decide) (by decide) (by decide)

end MdPdf
